import Mathlib

/-!
Shallow embedding of the PR-review / meeting-summary service
(`src/pr-reviewer.js`, `src/services/llm.js`, `src/services/github.js`,
`src/services/meeting-summarizer.js`) together with proofs about its
documented behaviour: the HTML sanitizer, the optimistic-versioning update
and append protocol of the Confluence client, the multi-format LLM response
normalizer, request building, best-effort meeting-analysis parsing, and the
two orchestration pipelines.

JavaScript strings are modelled as `String`/`List Char`, JavaScript numbers
appearing as version counters or token limits as `Int`/`Nat`, and dynamic
JSON-like values as the inductive type `JVal`.  HTTP calls are oracles passed
in explicitly; thrown exceptions are `Except` errors.
-/

/-- Character class of the JavaScript regex `\s` (the whitespace characters
relevant to this code base: space, tab, line feed, vertical tab, form feed,
carriage return, no-break space). -/
def jsSpace (c : Char) : Bool :=
  c = ' ' || c = '\t' || c = '\n' || c = '\x0b' || c = '\x0c' || c = '\r' || c = ' '

/-- Character class of the JavaScript regex `\w`. -/
def isWordChar (c : Char) : Bool :=
  ('a' ≤ c && c ≤ 'z') || ('A' ≤ c && c ≤ 'Z') || ('0' ≤ c && c ≤ '9') || c = '_'

/-- Character class of the regex `[a-zA-Z0-9#]` used by `extractTextContent`
for HTML entities. -/
def isEntityChar (c : Char) : Bool :=
  ('a' ≤ c && c ≤ 'z') || ('A' ≤ c && c ≤ 'Z') || ('0' ≤ c && c ≤ '9') || c = '#'

/-- Does `cs` start with `pat`? -/
def startsWithL : List Char → List Char → Bool
  | [], _ => true
  | _ :: _, [] => false
  | p :: ps, c :: cs => p = c && startsWithL ps cs

/-- Does `cs` contain `pat` as a contiguous substring?  Models
`String.prototype.includes`. -/
def containsSubL (pat : List Char) : List Char → Bool
  | [] => startsWithL pat []
  | c :: cs => startsWithL pat (c :: cs) || containsSubL pat cs

/-- `String.prototype.includes`. -/
def jsIncludes (s sub : String) : Bool := containsSubL sub.data s.data

/-- `String.prototype.toLowerCase`, adequate for the ASCII text this code
manipulates. -/
def jsToLower (s : String) : String := ⟨s.data.map Char.toLower⟩

/-- Trim of JavaScript `String.prototype.trim` on the character list. -/
def jsTrimL (cs : List Char) : List Char :=
  ((cs.dropWhile jsSpace).reverse.dropWhile jsSpace).reverse

/-- `String.prototype.trim`. -/
def jsTrim (s : String) : String := ⟨jsTrimL s.data⟩

/-- `String.prototype.split` with a single-character separator, keeping empty
segments exactly as JavaScript does. -/
def splitOnCharL (sep : Char) : List Char → List (List Char)
  | [] => [[]]
  | c :: cs =>
    let r := splitOnCharL sep cs
    if c = sep then [] :: r
    else
      match r with
      | [] => [[c]]
      | h :: t => (c :: h) :: t

/-- JavaScript `<` on two strings: lexicographic comparison of code units. -/
def jsStrLtL : List Char → List Char → Bool
  | [], [] => false
  | [], _ :: _ => true
  | _ :: _, [] => false
  | a :: as, b :: bs =>
    if a.val < b.val then true
    else if b.val < a.val then false
    else jsStrLtL as bs

/-- JavaScript `>=` on two strings, as used for the API-version comparison in
`llm.js`: `a >= b` holds iff `a < b` fails, where `<` is the lexicographic
code-unit order. -/
def jsStrGe (a b : String) : Bool := !(jsStrLtL a.data b.data)

/-! ## JavaScript values

Dynamic JSON-like values.  `undef` is JavaScript `undefined`; arrays and
objects use dedicated list types so that all recursion over `JVal` is
structural (and hence computes inside the kernel). -/

mutual

/-- A JavaScript value as it occurs in this code base. `num m e` denotes the
number `m · 10 ^ e`; every number the claims exercise has `e = 0`. -/
inductive JVal where
  | null
  | undef
  | bool (b : Bool)
  | num (m e : Int)
  | str (s : String)
  | arr (xs : JArr)
  | obj (fs : JObj)
  deriving DecidableEq

/-- Backbone of a JavaScript array of `JVal`s. -/
inductive JArr where
  | nil
  | cons (hd : JVal) (tl : JArr)
  deriving DecidableEq

/-- Backbone of a JavaScript object: ordered key/value fields. -/
inductive JObj where
  | nil
  | cons (k : String) (v : JVal) (tl : JObj)
  deriving DecidableEq

end

namespace JVal

/-- JavaScript truthiness. Objects and arrays are always truthy; `0`, the
empty string, `null`, `undefined` and `false` are falsy. -/
def truthy : JVal → Bool
  | .null => false
  | .undef => false
  | .bool b => b
  | .num m _ => !(m = 0)
  | .str s => !(s = "")
  | .arr _ => true
  | .obj _ => true

/-- `typeof v === 'string'`. -/
def isString : JVal → Bool
  | .str _ => true
  | _ => false

/-- `Array.isArray`. -/
def isArray : JVal → Bool
  | .arr _ => true
  | _ => false

end JVal

/-- Field lookup in an object; the last occurrence of a duplicated key wins,
as for JavaScript objects built by `JSON.parse`. -/
def jobjGet (fs : JObj) (k : String) : Option JVal :=
  match fs with
  | .nil => none
  | .cons k' v t =>
    match jobjGet t k with
    | some w => some w
    | none => if k' = k then some v else none

/-- Property access `v.k` where `v` is known not to be `null`/`undefined`
(for example because a truthiness guard already ran).  Accessing a missing
property, or a property of a primitive, yields `undefined`. -/
def jfield (v : JVal) (k : String) : JVal :=
  match v with
  | .obj fs => (jobjGet fs k).getD .undef
  | _ => (.undef : JVal)

/-- Property access `v.k` as an effect: on `null` or `undefined` it throws a
`TypeError` (modelled as `Except.error ()`), otherwise it behaves like
`jfield`. -/
def jaccess (v : JVal) (k : String) : Except Unit JVal :=
  match v with
  | .null => .error ()
  | .undef => .error ()
  | _ => .ok (jfield v k)

/-- Optional chaining `v?.k`: `null`/`undefined` propagate as `undefined`. -/
def jchain (v : JVal) (k : String) : JVal :=
  match v with
  | .null => .undef
  | .undef => .undef
  | _ => jfield v k

/-- Indexing `v[0]`.  On an array it is the head, on a non-empty string the
one-character string of its head; otherwise `undefined`. -/
def jindex0 (v : JVal) : JVal :=
  match v with
  | .arr (.cons h _) => h
  | .arr .nil => .undef
  | .str s =>
    match s.data with
    | [] => .undef
    | c :: _ => .str ⟨[c]⟩
  | _ => (.undef : JVal)

/-- JavaScript `a || b` specialised to a `JVal` left operand. -/
def jor (a b : JVal) : JVal := if a.truthy then a else b

/-! ## JSON serialisation (`JSON.stringify`) -/

/-- Decimal rendering of the number `m · 10 ^ e`, as `JSON.stringify` renders
the numbers this code meets (`e = 0` throughout the claims; for `e < 0` a
decimal point is inserted, for `e > 0` zeros are appended). -/
def printNum (m e : Int) : String :=
  if 0 ≤ e then toString m ++ (⟨List.replicate e.toNat '0'⟩ : String)
  else
    let digits := toString m.natAbs
    let k := (-e).toNat
    let padded :=
      if digits.length ≤ k then (⟨List.replicate (k + 1 - digits.length) '0'⟩ : String) ++ digits
      else digits
    let point := padded.length - k
    (if m < 0 then "-" else "") ++ padded.take point ++ "." ++ padded.drop point

/-- Hexadecimal digit, for `\u00XX` escapes. -/
def hexDigit (n : Nat) : Char :=
  if n < 10 then Char.ofNat ('0'.toNat + n) else Char.ofNat ('a'.toNat + (n - 10))

/-- JSON escaping of one string character, as `JSON.stringify` performs it. -/
def jsonQuoteChar (c : Char) : List Char :=
  if c = '"' then ['\\', '"']
  else if c = '\\' then ['\\', '\\']
  else if c = '\n' then ['\\', 'n']
  else if c = '\r' then ['\\', 'r']
  else if c = '\t' then ['\\', 't']
  else if c = '\x08' then ['\\', 'b']
  else if c = '\x0c' then ['\\', 'f']
  else if c.toNat < 32 then
    ['\\', 'u', '0', '0', hexDigit (c.toNat / 16), hexDigit (c.toNat % 16)]
  else [c]

/-- JSON escaping of a whole string body. -/
def jsonQuoteL : List Char → List Char
  | [] => []
  | c :: cs => jsonQuoteChar c ++ jsonQuoteL cs

/-- A JSON string literal with quotes. -/
def jsonQuote (s : String) : String := ⟨'"' :: (jsonQuoteL s.data ++ ['"'])⟩

/-- Indentation of `n` spaces. -/
def indentStr (n : Nat) : String := ⟨List.replicate n ' '⟩

/-- Bracketed join used by `JSON.stringify`: compact when `ind = 0`
(`JSON.stringify(v)`), multi-line with `ind`-space indentation otherwise
(`JSON.stringify(v, null, ind)`); empty containers print as `[]`/`{}` in both
modes. `d` is the depth of the container itself. -/
def joinBracket (ind d : Nat) (op cl : String) (items : List String) : String :=
  match items with
  | [] => op ++ cl
  | _ =>
    if ind = 0 then op ++ String.intercalate "," items ++ cl
    else
      op ++ "\n" ++ indentStr (ind * (d + 1)) ++
        String.intercalate (",\n" ++ indentStr (ind * (d + 1))) items ++
        "\n" ++ indentStr (ind * d) ++ cl

mutual

/-- `JSON.stringify(v, null, ind)` at depth `d`; `none` models the
`undefined` result for an `undefined` argument. -/
def stringifyV (ind d : Nat) : JVal → Option String
  | .null => some "null"
  | .undef => none
  | .bool b => some (if b then "true" else "false")
  | .num m e => some (printNum m e)
  | .str s => some (jsonQuote s)
  | .arr xs => some (joinBracket ind d "[" "]" (stringifyItems ind (d + 1) xs))
  | .obj fs => some (joinBracket ind d "\x7b" "\x7d" (stringifyFields ind (d + 1) fs))

/-- Array elements; an `undefined` element prints as `null`. -/
def stringifyItems (ind d : Nat) : JArr → List String
  | .nil => []
  | .cons h t => ((stringifyV ind d h).getD "null") :: stringifyItems ind d t

/-- Object fields; a field whose value is `undefined` is skipped. -/
def stringifyFields (ind d : Nat) : JObj → List String
  | .nil => []
  | .cons k v t =>
    match stringifyV ind d v with
    | some sv => (jsonQuote k ++ (if ind = 0 then ":" else ": ") ++ sv) :: stringifyFields ind d t
    | none => stringifyFields ind d t

end

/-- `JSON.stringify(v)`. -/
def jsonStringify (v : JVal) : Option String := stringifyV 0 0 v

/-- `JSON.stringify(v, null, 2)`. -/
def jsonStringifyPretty (v : JVal) : Option String := stringifyV 2 0 v

/-! ## JSON parsing (`JSON.parse`) -/

/-- JSON insignificant whitespace. -/
def jsonWs (c : Char) : Bool := c = ' ' || c = '\t' || c = '\n' || c = '\r'

/-- Skip insignificant whitespace. -/
def skipJsonWs (cs : List Char) : List Char := cs.dropWhile jsonWs

/-- Value of a hexadecimal digit (code points: `0`–`9` are 48–57, `A`–`F`
are 65–70, `a`–`f` are 97–102). -/
def hexVal (c : Char) : Option Nat :=
  let n := c.toNat
  if n ≤ 57 then (if 48 ≤ n then some (n - 48) else none)
  else if n ≤ 70 then (if 65 ≤ n then some (n - 55) else none)
  else if n ≤ 102 then (if 97 ≤ n then some (n - 87) else none)
  else none

/-- One backslash escape inside a JSON string (the backslash is already
consumed).  Surrogate pairs in `\uXXXX` escapes combine into one character; a
lone surrogate — representable in JavaScript but not as a Unicode scalar —
degrades to U+FFFD (no input the claims exercise contains one). -/
def parseJsonEscape (r : List Char) : Option (Char × List Char) :=
  match r with
  | '"' :: r2 => some ('"', r2)
  | '\\' :: r2 => some ('\\', r2)
  | '/' :: r2 => some ('/', r2)
  | 'b' :: r2 => some ('\x08', r2)
  | 'f' :: r2 => some ('\x0c', r2)
  | 'n' :: r2 => some ('\n', r2)
  | 'r' :: r2 => some ('\r', r2)
  | 't' :: r2 => some ('\t', r2)
  | 'u' :: h1 :: h2 :: h3 :: h4 :: r2 =>
    match hexVal h1, hexVal h2, hexVal h3, hexVal h4 with
    | some a, some b, some c, some d =>
      let n := ((a * 16 + b) * 16 + c) * 16 + d
      if 0xd800 ≤ n && n ≤ 0xdbff then
        match r2 with
        | '\\' :: 'u' :: g1 :: g2 :: g3 :: g4 :: r3 =>
          (match hexVal g1, hexVal g2, hexVal g3, hexVal g4 with
           | some a2, some b2, some c2, some d2 =>
             let n2 := ((a2 * 16 + b2) * 16 + c2) * 16 + d2
             if 0xdc00 ≤ n2 && n2 ≤ 0xdfff then
               some (Char.ofNat (0x10000 + (n - 0xd800) * 1024 + (n2 - 0xdc00)), r3)
             else some ('�', r2)
           | _, _, _, _ => some ('�', r2))
        | _ => some ('�', r2)
      else if 0xdc00 ≤ n && n ≤ 0xdfff then some ('�', r2)
      else some (Char.ofNat n, r2)
    | _, _, _, _ => none
  | _ => none

/-- Body of a JSON string literal after the opening quote: returns the decoded
characters and the input after the closing quote.  Unescaped control
characters are rejected, as by `JSON.parse`. -/
def parseJsonStringGo : Nat → List Char → Option (List Char × List Char)
  | 0, _ => none
  | fuel + 1, cs =>
    match cs with
    | [] => none
    | '"' :: r => some ([], r)
    | '\\' :: r =>
      (match parseJsonEscape r with
       | some (c, r2) =>
         match parseJsonStringGo fuel r2 with
         | some (out, rest) => some (c :: out, rest)
         | none => none
       | none => none)
    | c :: r =>
      if c.toNat < 32 then none
      else
        match parseJsonStringGo fuel r with
        | some (out, rest) => some (c :: out, rest)
        | none => none

/-- Digits to a natural number. -/
def digitsToNat (ds : List Char) : Nat :=
  ds.foldl (fun a c => a * 10 + (c.toNat - '0'.toNat)) 0

/-- A JSON number literal: returns mantissa `m` and exponent `e` denoting
`m · 10 ^ e`, plus the rest of the input. -/
def parseJsonNumber (cs : List Char) : Option (Int × Int × List Char) :=
  let signed :=
    match cs with
    | '-' :: r => (true, r)
    | _ => (false, cs)
  let neg := signed.1
  let cs1 := signed.2
  let intPart : Option (List Char × List Char) :=
    match cs1 with
    | '0' :: r => some (['0'], r)
    | c :: r =>
      if c.isDigit then some (c :: r.takeWhile Char.isDigit, r.dropWhile Char.isDigit)
      else none
    | [] => none
  match intPart with
  | none => none
  | some (ids, r1) =>
    let fracPart : Option (List Char × List Char) :=
      match r1 with
      | '.' :: r =>
        let ds := r.takeWhile Char.isDigit
        if ds.isEmpty then none else some (ds, r.dropWhile Char.isDigit)
      | _ => some ([], r1)
    match fracPart with
    | none => none
    | some (fds, r2) =>
      let expPart : Option (Int × List Char) :=
        match r2 with
        | e :: r =>
          if e = 'e' || e = 'E' then
            let se :=
              match r with
              | '+' :: rr => ((1 : Int), rr)
              | '-' :: rr => ((-1 : Int), rr)
              | _ => ((1 : Int), r)
            let ds := se.2.takeWhile Char.isDigit
            if ds.isEmpty then none
            else some (se.1 * (digitsToNat ds : Int), se.2.dropWhile Char.isDigit)
          else some (0, r2)
        | [] => some (0, r2)
      match expPart with
      | none => none
      | some (ex, r3) =>
        let mAbs : Nat := digitsToNat (ids ++ fds)
        let m : Int := if neg then -(mAbs : Int) else (mAbs : Int)
        some (m, ex - (fds.length : Int), r3)

mutual

/-- A JSON value with leading whitespace, returning the rest of the input.
Fuel decreases on every nested parse; the wrapper supplies enough for any
input. -/
def parseJVal : Nat → List Char → Option (JVal × List Char)
  | 0, _ => none
  | fuel + 1, cs0 =>
    let cs := skipJsonWs cs0
    if startsWithL ['n', 'u', 'l', 'l'] cs then some (.null, cs.drop 4)
    else if startsWithL ['t', 'r', 'u', 'e'] cs then some (.bool true, cs.drop 4)
    else if startsWithL ['f', 'a', 'l', 's', 'e'] cs then some (.bool false, cs.drop 5)
    else
      match cs with
      | '"' :: r =>
        (match parseJsonStringGo (r.length + 1) r with
         | some (content, rest) => some (.str ⟨content⟩, rest)
         | none => none)
      | '[' :: r =>
        let r1 := skipJsonWs r
        (match r1 with
         | ']' :: r2 => some (.arr .nil, r2)
         | _ =>
           match parseJVal fuel r1 with
           | some (v, r2) =>
             (match parseJArrMore fuel r2 with
              | some (t, r3) => some (.arr (.cons v t), r3)
              | none => none)
           | none => none)
      | '\x7b' :: r =>
        let r1 := skipJsonWs r
        (match r1 with
         | '\x7d' :: r2 => some (.obj .nil, r2)
         | _ =>
           match parseJObjPair fuel r1 with
           | some (k, v, r2) =>
             (match parseJObjMore fuel r2 with
              | some (t, r3) => some (.obj (.cons k v t), r3)
              | none => none)
           | none => none)
      | _ =>
        match parseJsonNumber cs with
        | some (m, e, rest) => some (.num m e, rest)
        | none => none

/-- Continuation of a non-empty JSON array after one element: `]` ends it, a
comma demands a further element. -/
def parseJArrMore : Nat → List Char → Option (JArr × List Char)
  | 0, _ => none
  | fuel + 1, cs0 =>
    let cs := skipJsonWs cs0
    match cs with
    | ']' :: r => some (.nil, r)
    | ',' :: r =>
      (match parseJVal fuel r with
       | some (v, r2) =>
         (match parseJArrMore fuel r2 with
          | some (t, r3) => some (.cons v t, r3)
          | none => none)
       | none => none)
    | _ => none

/-- One `"key": value` pair of a JSON object (no leading whitespace). -/
def parseJObjPair : Nat → List Char → Option (String × JVal × List Char)
  | 0, _ => none
  | fuel + 1, cs =>
    match cs with
    | '"' :: r =>
      (match parseJsonStringGo (r.length + 1) r with
       | some (kcs, r1) =>
         (match skipJsonWs r1 with
          | ':' :: r3 =>
            (match parseJVal fuel r3 with
             | some (v, r4) => some (⟨kcs⟩, v, r4)
             | none => none)
          | _ => none)
       | none => none)
    | _ => none

/-- Continuation of a non-empty JSON object after one pair. -/
def parseJObjMore : Nat → List Char → Option (JObj × List Char)
  | 0, _ => none
  | fuel + 1, cs0 =>
    let cs := skipJsonWs cs0
    match cs with
    | '\x7d' :: r => some (.nil, r)
    | ',' :: r =>
      let r1 := skipJsonWs r
      (match parseJObjPair fuel r1 with
       | some (k, v, r2) =>
         (match parseJObjMore fuel r2 with
          | some (t, r3) => some (.cons k v t, r3)
          | none => none)
       | none => none)
    | _ => none

end

/-- Models `JSON.parse`: a complete JSON text, whitespace allowed on either
side; any unconsumed non-whitespace input is a syntax error (`none`). -/
def jsonParse (s : String) : Option JVal :=
  match parseJVal (s.length + 1) s.data with
  | some (v, rest) => if (skipJsonWs rest).isEmpty then some v else none
  | none => none

/-- Strip `pat` (given lower-case) case-insensitively from the head of the
input, returning the matched text as it appears and the rest. -/
def ciStrip : List Char → List Char → Option (List Char × List Char)
  | [], cs => some ([], cs)
  | _ :: _, [] => none
  | p :: ps, c :: cs =>
    if c.toLower = p then
      match ciStrip ps cs with
      | some (m, r) => some (c :: m, r)
      | none => none
    else none

/-! ## HTML sanitizer (`ConfluenceService.sanitizeContentForConfluence`,
pr-reviewer.js lines 503–547) -/

namespace ConfluenceService

/-- Entity names protected by the negative lookahead of
`content.replace(/&(?!amp;|lt;|gt;|quot;|#39;)/g, '&amp;')`. -/
def protectedEntity (cs : List Char) : Bool :=
  startsWithL ['a', 'm', 'p', ';'] cs || startsWithL ['l', 't', ';'] cs ||
    startsWithL ['g', 't', ';'] cs || startsWithL ['q', 'u', 'o', 't', ';'] cs ||
    startsWithL ['#', '3', '9', ';'] cs

/-- Models `.replace(/&(?!amp;|lt;|gt;|quot;|#39;)/g, '&amp;')`: every `&`
not already starting one of the five entities is replaced by `&amp;`;
scanning resumes after the original `&`, so inserted text is not re-scanned —
exactly the `String.replace` semantics. -/
def escapeAmp : List Char → List Char
  | [] => []
  | '&' :: rest =>
    if protectedEntity rest then '&' :: escapeAmp rest
    else '&' :: 'a' :: 'm' :: 'p' :: ';' :: escapeAmp rest
  | c :: rest => c :: escapeAmp rest

/-- Models `.replace(/</g, '&lt;')`. -/
def escapeLt : List Char → List Char
  | [] => []
  | c :: rest => if c = '<' then '&' :: 'l' :: 't' :: ';' :: escapeLt rest else c :: escapeLt rest

/-- Models `.replace(/>/g, '&gt;')`. -/
def escapeGt : List Char → List Char
  | [] => []
  | c :: rest => if c = '>' then '&' :: 'g' :: 't' :: ';' :: escapeGt rest else c :: escapeGt rest

/-- The tag alternatives of the allow-list regex
`&lt;(\/?(h[1-6]|p|ul|ol|li|strong|em|br|hr|div|span)(\s[^&]*?)?)&gt;`, in
lower case (the regex carries the `i` flag).  The list is prefix-free, so at
any position at most one alternative can match and the regex alternation is
deterministic. -/
def allowedTags : List (List Char) :=
  [['h', '1'], ['h', '2'], ['h', '3'], ['h', '4'], ['h', '5'], ['h', '6'], ['p'],
   ['u', 'l'], ['o', 'l'], ['l', 'i'], ['s', 't', 'r', 'o', 'n', 'g'], ['e', 'm'],
   ['b', 'r'], ['h', 'r'], ['d', 'i', 'v'], ['s', 'p', 'a', 'n']]

/-- First allow-list alternative matching at the head of the input. -/
def findAllowedTagGo : List (List Char) → List Char → Option (List Char × List Char)
  | [], _ => none
  | t :: ts, cs =>
    match ciStrip t cs with
    | some r => some r
    | none => findAllowedTagGo ts cs

/-- The tag-name part of the allow-list regex. -/
def findAllowedTag (cs : List Char) : Option (List Char × List Char) :=
  findAllowedTagGo allowedTags cs

/-- After the optional slash and the tag name the regex requires
`(\s[^&]*?)?&gt;`: either `&gt;` immediately, or one whitespace character
followed by ampersand-free text up to an `&gt;` (the lazy `[^&]*?` cannot
cross an `&`, so the first `&` must open the closing `&gt;`).  Returns the
attribute text as it appears and the rest after the `&gt;`. -/
def parseTagEnd (cs : List Char) : Option (List Char × List Char) :=
  match ciStrip ['&', 'g', 't', ';'] cs with
  | some (_, r) => some ([], r)
  | none =>
    match cs with
    | [] => none
    | c :: cs' =>
      if jsSpace c then
        let a := cs'.takeWhile (fun x => !(x = '&'))
        let r := cs'.dropWhile (fun x => !(x = '&'))
        match ciStrip ['&', 'g', 't', ';'] r with
        | some (_, r') => some (c :: a, r')
        | none => none
      else none

/-- A successful match of the allow-list regex at one position. -/
structure ReopenHit where
  slash : Bool
  tagText : List Char
  attrs : List Char
  rest : List Char
  deriving DecidableEq

/-- Attempt the allow-list regex at the head of the input.  A leading `/`
after `&lt;` commits to the slashed form: backtracking into the slash-less
form cannot succeed because no alternative begins with `/`. -/
def parseReopenAt (cs : List Char) : Option ReopenHit :=
  match ciStrip ['&', 'l', 't', ';'] cs with
  | none => none
  | some (_, r1) =>
    match r1 with
    | '/' :: r2 =>
      (match findAllowedTag r2 with
       | none => none
       | some (tt, r3) =>
         match parseTagEnd r3 with
         | none => none
         | some (a, r4) => some ⟨true, tt, a, r4⟩)
    | _ =>
      match findAllowedTag r1 with
      | none => none
      | some (tt, r3) =>
        (match parseTagEnd r3 with
         | none => none
         | some (a, r4) => some ⟨false, tt, a, r4⟩)

/-- Models the global replace
`.replace(/&lt;(\/?(h[1-6]|p|ul|ol|li|strong|em|br|hr|div|span)(\s[^&]*?)?)&gt;/gi, '<$1>')`
by a left-to-right scan: a successful match is rewritten to `<$1>` and the
scan resumes after it, otherwise one character is copied.  At fuel 0 the rest
is left unchanged; the wrapper supplies fuel `length`, sufficient because
every step consumes at least one character. -/
def reopenGo : Nat → List Char → List Char
  | 0, cs => cs
  | _ + 1, [] => []
  | fuel + 1, c :: rest =>
    match parseReopenAt (c :: rest) with
    | some h =>
      '<' :: ((if h.slash then ['/'] else []) ++ h.tagText ++ h.attrs ++ '>' :: reopenGo fuel h.rest)
    | none => c :: reopenGo fuel rest

/-- The allow-list reopening pass. -/
def reopenAllowedTags (cs : List Char) : List Char := reopenGo cs.length cs

/-- One attempt of the open-tag census regex `/<(\w+)(?:\s[^>]*)?>/g` at the
head of the input: tag name and rest after the closing `>`. -/
def parseOpenTagAt (cs : List Char) : Option (List Char × List Char) :=
  match cs with
  | '<' :: r1 =>
    let w := r1.takeWhile isWordChar
    let r2 := r1.dropWhile isWordChar
    if w.isEmpty then none
    else
      (match r2 with
       | '>' :: r3 => some (w, r3)
       | c :: r3 =>
         if jsSpace c then
           match r3.dropWhile (fun x => !(x = '>')) with
           | '>' :: r5 => some (w, r5)
           | _ => none
         else none
       | [] => none)
  | _ => none

/-- All matches of the open-tag census, lower-cased, left to right and
non-overlapping (`[...s.matchAll(p)].map(m => m[1].toLowerCase())`). -/
def scanOpenTagsGo : Nat → List Char → List (List Char)
  | 0, _ => []
  | _ + 1, [] => []
  | fuel + 1, c :: rest =>
    match parseOpenTagAt (c :: rest) with
    | some (w, r) => w.map Char.toLower :: scanOpenTagsGo fuel r
    | none => scanOpenTagsGo fuel rest

/-- Open-tag census of the balance check. -/
def scanOpenTags (cs : List Char) : List (List Char) := scanOpenTagsGo cs.length cs

/-- One attempt of the close-tag census regex `/<\/(\w+)>/g`. -/
def parseCloseTagAt (cs : List Char) : Option (List Char × List Char) :=
  match cs with
  | '<' :: '/' :: r1 =>
    let w := r1.takeWhile isWordChar
    let r2 := r1.dropWhile isWordChar
    if w.isEmpty then none
    else
      (match r2 with
       | '>' :: r3 => some (w, r3)
       | _ => none)
  | _ => none

/-- All matches of the close-tag census, lower-cased. -/
def scanCloseTagsGo : Nat → List Char → List (List Char)
  | 0, _ => []
  | _ + 1, [] => []
  | fuel + 1, c :: rest =>
    match parseCloseTagAt (c :: rest) with
    | some (w, r) => w.map Char.toLower :: scanCloseTagsGo fuel r
    | none => scanCloseTagsGo fuel rest

/-- Close-tag census of the balance check. -/
def scanCloseTags (cs : List Char) : List (List Char) := scanCloseTagsGo cs.length cs

/-- Self-closing tags excluded from the balance check. -/
def selfClosingTags : List (List Char) := [['b', 'r'], ['h', 'r'], ['i', 'm', 'g']]

/-- The escape-and-reopen stage of `sanitizeContentForConfluence`
(pr-reviewer.js 512–516). -/
def sanitizeEscaped (cs : List Char) : List Char :=
  reopenAllowedTags (escapeGt (escapeLt (escapeAmp cs)))

/-- The `<p>`-wrap stage (pr-reviewer.js 518–521): text with no `<` or no `>`
is wrapped in one paragraph. -/
def sanitizeWrapped (cs : List Char) : List Char :=
  if !((sanitizeEscaped cs).contains '<') || !((sanitizeEscaped cs).contains '>') then
    '<' :: 'p' :: '>' :: (sanitizeEscaped cs ++ ['<', '/', 'p', '>'])
  else sanitizeEscaped cs

/-- Character-level body of `sanitizeContentForConfluence` for a non-empty
string input (pr-reviewer.js 509–542): after escaping and wrapping, the open
and close tag censuses are compared (self-closing tags excluded) and an
unbalanced fragment is wrapped in one `<div>`. -/
def sanitizePipeline (cs : List Char) : List Char :=
  if !((((scanOpenTags (sanitizeWrapped cs)).filter
        (fun t => !(selfClosingTags.contains t))).length) = (scanCloseTags (sanitizeWrapped cs)).length) then
    '<' :: 'd' :: 'i' :: 'v' :: '>' :: (sanitizeWrapped cs ++ ['<', '/', 'd', 'i', 'v', '>'])
  else sanitizeWrapped cs

/-- Models `sanitizeContentForConfluence(content)` (pr-reviewer.js 503–547).
The guard `if (!content || typeof content !== 'string')` covers every
non-string value and the empty string.  The `catch` fallback of the source is
unreachable in this pure model, which is the never-throws contract. -/
def sanitizeContentForConfluence (content : JVal) : String :=
  match content with
  | .str s => if s = "" then "<p>No content provided</p>" else ⟨sanitizePipeline s.data⟩
  | _ => "<p>No content provided</p>"

end ConfluenceService

/-! ## Shared error model -/

/-- An axios-level HTTP failure: `status` and `data` of `error.response` when
a response exists, plus `error.message`. -/
structure AxiosErr where
  status : Option Nat
  data : JVal
  message : String
  deriving DecidableEq

/-- A thrown JavaScript error: either `new Error(msg)` or a re-thrown axios
error. -/
inductive JsErr where
  | err (msg : String)
  | raw (e : AxiosErr)
  deriving DecidableEq

/-- `error.message`. -/
def JsErr.message : JsErr → String
  | .err m => m
  | .raw e => e.message

/-- Property access with the `TypeError` message JavaScript raises on a
`null`/`undefined` base. -/
def jaccessE (v : JVal) (k : String) : Except JsErr JVal :=
  match v with
  | .null => .error (.err ("Cannot read properties of null (reading '" ++ k ++ "')"))
  | .undef => .error (.err ("Cannot read properties of undefined (reading '" ++ k ++ "')"))
  | _ => .ok (jfield v k)

/-- Property assignment `v.k = w` on an object (insertion order preserved,
new keys appended), the identity elsewhere. -/
def jobjSet : JObj → String → JVal → JObj
  | .nil, k, w => .cons k w .nil
  | .cons k' v t, k, w => if k' = k then .cons k' w t else .cons k' v (jobjSet t k w)

/-- Property assignment on a `JVal`. -/
def jset (v : JVal) (k : String) (w : JVal) : JVal :=
  match v with
  | .obj fs => .obj (jobjSet fs k w)
  | _ => v

/-! ## LLM service (`src/services/llm.js`) -/

namespace LLMService

/-- The guard `responseData.choices && responseData.choices[0] &&
responseData.choices[0].message`, with property access on `null`/`undefined`
throwing. -/
def standardShapeGuard (r : JVal) : Except Unit Bool := do
  let choices ← jaccess r "choices"
  if choices.truthy then
    let c0 := jindex0 choices
    if c0.truthy then do
      let m ← jaccess c0 "message"
      pure m.truthy
    else pure false
  else pure false

/-- `xs.find(item => item.type === want)`; evaluating the callback on a
`null`/`undefined` element throws. -/
def findByTypeField (want : String) : JArr → Except Unit (Option JVal)
  | .nil => .ok none
  | .cons h t => do
    let ty ← jaccess h "type"
    match ty with
    | .str s => if s = want then pure (some h) else findByTypeField want t
    | _ => findByTypeField want t

/-- The array behind a value already known to satisfy `Array.isArray`. -/
def toJArr : JVal → JArr
  | .arr xs => xs
  | _ => .nil

/-- The final `return JSON.stringify(responseData, null, 2)`; stringifying
`undefined` yields `undefined`. -/
def jsonFallback (r : JVal) : Except Unit JVal :=
  pure (match jsonStringifyPretty r with
        | some s => .str s
        | none => (.undef : JVal))

/-- The `output`-array branch of the normalizer (llm.js 294–311): look for a
`type: "message"` element carrying a `type: "output_text"` content item, then
fall back to the first output item, then to the JSON dump. -/
def outputBranch (r : JVal) (out : JVal) : Except Unit JVal := do
  let mo ← findByTypeField "message" (toJArr out)
  let found : Option JVal ←
    (match mo with
     | some messageOutput =>
       if messageOutput.truthy then do
         let cont ← jaccess messageOutput "content"
         if cont.truthy && cont.isArray then do
           let tc ← findByTypeField "output_text" (toJArr cont)
           (match tc with
            | some textContent =>
              if textContent.truthy then do
                let tx ← jaccess textContent "text"
                pure (if tx.truthy then some tx else none)
              else pure none
            | none => pure none)
         else pure none
       else pure none
     | none => pure none)
  match found with
  | some v => pure v
  | none => do
    let out0 ← jaccess r "output"
    let o0 := jindex0 out0
    if o0.truthy then do
      let c ← jaccess o0 "content"
      if c.truthy then
        if c.isString then pure c
        else
          let c0 := jindex0 c
          if c0.truthy then do
            let tx ← jaccess c0 "text"
            if tx.truthy then pure tx else jsonFallback r
          else jsonFallback r
      else jsonFallback r
    else jsonFallback r

/-- The `try` body of `extractContentFromCustomResponse` (llm.js 288–324):
the ordered shape checks. -/
def extractCore (r : JVal) : Except Unit JVal := do
  let g1 ← standardShapeGuard r
  if g1 then do
    let choices ← jaccess r "choices"
    let m ← jaccess (jindex0 choices) "message"
    jaccess m "content"
  else do
    let out ← jaccess r "output"
    if out.truthy && out.isArray then outputBranch r out
    else do
      let resp ← jaccess r "response"
      if resp.truthy && resp.isString then pure resp
      else do
        let t ← jaccess r "text"
        if t.truthy && t.isString then pure t
        else if r.isString then pure r
        else jsonFallback r

/-- Models `extractContentFromCustomResponse` (llm.js 286–330).  The
`try`/`catch` converts any `TypeError` from property access on
`null`/`undefined` into the fixed error string; no input throws. -/
def extractContentFromCustomResponse (responseData : JVal) : JVal :=
  match extractCore responseData with
  | .ok v => v
  | .error _ => .str "Error: Could not extract content from response"

/-- One chat message of the standard request format. -/
structure ChatMessage where
  role : String
  content : String
  deriving DecidableEq

/-- The standard-format request body built by `analyzeChanges` and
`analyzeMeetingContent`: `model`, a system/user message pair, `temperature`,
and exactly one token-limit field.  The temperature literal is modelled as
the rational it denotes. -/
structure ChatRequestBody where
  model : String
  messages : List ChatMessage
  temperature : ℚ
  max_tokens : Option Nat
  max_completion_tokens : Option Nat
  deriving DecidableEq

/-- Lines 116–142 of `analyzeChanges` (standard, non-"responses" format):
temperature by model restriction, then `max_completion_tokens` when
`config.llm.isAzure && config.llm.apiVersion >= '2024-08-01-preview'`
(JavaScript string `>=`, i.e. lexicographic code units), `max_tokens`
otherwise, both at 2000. -/
def analyzeChangesStandardBody (modelOrDeployment : String) (isAzure : Bool)
    (apiVersion modelName systemPrompt prompt : String) : ChatRequestBody :=
  let base : ChatRequestBody :=
    { model := modelOrDeployment,
      messages := [⟨"system", systemPrompt⟩, ⟨"user", prompt⟩],
      temperature := if modelName = "gpt-5-nano" then 1 else 3 / 10,
      max_tokens := none,
      max_completion_tokens := none }
  if isAzure && jsStrGe apiVersion "2024-08-01-preview" then
    { base with max_completion_tokens := some 2000 }
  else
    { base with max_tokens := some 2000 }

/-- Lines 375–401 of `analyzeMeetingContent`: the same construction with a
3000-token limit. -/
def analyzeMeetingStandardBody (modelOrDeployment : String) (isAzure : Bool)
    (apiVersion modelName systemPrompt prompt : String) : ChatRequestBody :=
  let base : ChatRequestBody :=
    { model := modelOrDeployment,
      messages := [⟨"system", systemPrompt⟩, ⟨"user", prompt⟩],
      temperature := if modelName = "gpt-5-nano" then 1 else 3 / 10,
      max_tokens := none,
      max_completion_tokens := none }
  if isAzure && jsStrGe apiVersion "2024-08-01-preview" then
    { base with max_completion_tokens := some 3000 }
  else
    { base with max_tokens := some 3000 }

/-- Models `formatAsGitHubComment` (llm.js 624–642); `timestamp` stands for
`new Date().toISOString()`.  The header bytes reproduce the source file
verbatim. -/
def formatAsGitHubComment (analysis designDocUrl timestamp : String) : String :=
  "\n## ðŸ” Design Document Review\n\n**Reviewed against:** [Design Document](" ++ designDocUrl ++
    ")  \n**Review Date:** " ++ timestamp ++
    "  \n**Reviewer:** AI Code Review Bot\n\n---\n\n" ++ analysis ++
    "\n\n---\n\n> This review was automatically generated by comparing the PR changes against the linked design document. Please address any identified issues and feel free to ask for clarification on any points.\n"

end LLMService

namespace LLMService

/-- The regex `/\{[\s\S]*\}/` of `parseMeetingAnalysis`: greedy, so it spans
from the first `{` to the last `}` provided that brace lies beyond it. -/
def jsonBlockMatch (text : String) : Option String :=
  let cs := text.data
  match cs.findIdx? (fun c => c = '\x7b') with
  | none => none
  | some i =>
    match cs.reverse.findIdx? (fun c => c = '\x7d') with
    | none => none
    | some jr =>
      let j := cs.length - 1 - jr
      if i < j then some ⟨(cs.drop i).take (j - i + 1)⟩ else none

/-- Models `extractActionItemsFromText` (llm.js 581–595): keep the trimmed
lines that mention "action"/"todo" (case-insensitively), contain a `[ ]`
checkbox, or are dashed lines mentioning "assign". -/
def extractActionItemsFromText (text : String) : List String :=
  ((splitOnCharL '\n' text.data).filter (fun line =>
      containsSubL "action".data (line.map Char.toLower) ||
      containsSubL "todo".data (line.map Char.toLower) ||
      containsSubL "[ ]".data line ||
      (startsWithL ['-'] (jsTrimL line) && containsSubL "assign".data (line.map Char.toLower)))).map
    (fun line => (⟨jsTrimL line⟩ : String))

/-- `<[^>]+>` at the head of the input: matched text and rest. -/
def angleChunkAt (cs : List Char) : Option (List Char × List Char) :=
  match cs with
  | '<' :: r =>
    let seg := r.takeWhile (fun c => !(c = '>'))
    if seg.isEmpty then none
    else
      (match r.dropWhile (fun c => !(c = '>')) with
       | '>' :: r2 => some ('<' :: (seg ++ ['>']), r2)
       | _ => none)
  | _ => none

/-- `<\/[^>]+>` at the head of the input: matched text and rest. -/
def closeChunkAt (cs : List Char) : Option (List Char × List Char) :=
  match cs with
  | '<' :: '/' :: r =>
    let seg := r.takeWhile (fun c => !(c = '>'))
    if seg.isEmpty then none
    else
      (match r.dropWhile (fun c => !(c = '>')) with
       | '>' :: r2 => some ('<' :: '/' :: (seg ++ ['>']), r2)
       | _ => none)
  | _ => none

/-- The prefix of the input ending exactly at the end of the LAST match of
`<\/[^>]+>` within it (the greedy `[\s\S]*` of the block regex stretches to
the rightmost closing chunk). -/
def lastCloseSlice : Nat → List Char → Option (List Char)
  | 0, _ => none
  | _ + 1, [] => none
  | fuel + 1, c :: rest =>
    match lastCloseSlice fuel rest with
    | some t => some (c :: t)
    | none =>
      match closeChunkAt (c :: rest) with
      | some (m, _) => some m
      | none => none

/-- Leftmost match of `/<[^>]+>[\s\S]*<\/[^>]+>/`: the first angle chunk that
is followed, anywhere later, by a closing chunk; the match runs to the end of
the last closing chunk. -/
def findHtmlBlockGo : Nat → List Char → Option (List Char)
  | 0, _ => none
  | _ + 1, [] => none
  | fuel + 1, c :: rest =>
    match angleChunkAt (c :: rest) with
    | some (m1, r1) =>
      (match lastCloseSlice (r1.length + 1) r1 with
       | some t => some (m1 ++ t)
       | none => findHtmlBlockGo fuel rest)
    | none => findHtmlBlockGo fuel rest

/-- The HTML-block regex of `extractUpdatedContentFromText`. -/
def findHtmlBlock (cs : List Char) : Option (List Char) := findHtmlBlockGo cs.length cs

/-- The lazy capture `([\s\S]*?)(?=\n\n|\n#|$)`: characters up to the first
blank line, heading line, or the end of the input. -/
def captureUntilStop : List Char → List Char
  | [] => []
  | c :: rest =>
    if startsWithL ['\n', '\n'] (c :: rest) || startsWithL ['\n', '#'] (c :: rest) then []
    else c :: captureUntilStop rest

/-- After the case-insensitive key `updated content`, the regex requires
`[:\s]+` (at least one separator) and then captures lazily up to a stop. -/
def updatedContentKeyAt (cs : List Char) : Option (List Char) :=
  match ciStrip "updated content".data cs with
  | some (_, r) =>
    let sep := r.takeWhile (fun c => c = ':' || jsSpace c)
    if sep.isEmpty then none
    else some (captureUntilStop (r.dropWhile (fun c => c = ':' || jsSpace c)))
  | none => none

/-- Leftmost match of `/updated content[:\s]+([\s\S]*?)(?=\n\n|\n#|$)/i`. -/
def findUpdatedContentGo : Nat → List Char → Option (List Char)
  | 0, _ => none
  | _ + 1, [] => none
  | fuel + 1, c :: rest =>
    match updatedContentKeyAt (c :: rest) with
    | some cap => some cap
    | none => findUpdatedContentGo fuel rest

/-- `.replace(/\n/g, '<br/>')`. -/
def nlToBrL : List Char → List Char
  | [] => []
  | '\n' :: r => '<' :: 'b' :: 'r' :: '/' :: '>' :: nlToBrL r
  | c :: r => c :: nlToBrL r

/-- Models `extractUpdatedContentFromText` (llm.js 602–616): an HTML-looking
block verbatim, else a paragraph built from the text after an
"updated content:" marker, else the empty string. -/
def extractUpdatedContentFromText (text : String) : String :=
  match findHtmlBlock text.data with
  | some m => ⟨m⟩
  | none =>
    match findUpdatedContentGo text.data.length text.data with
    | some cap => "<p>" ++ (⟨nlToBrL (jsTrimL cap)⟩ : String) ++ "</p>"
    | none => ""

/-- The object `parseMeetingAnalysis` returns. -/
structure MeetingAnalysis where
  summary : JVal
  designChanges : JVal
  actionItems : JVal
  shouldUpdate : JVal
  updatedContent : JVal
  reasoning : JVal
  deriving DecidableEq

/-- A JavaScript array of strings. -/
def jarrOfStrings : List String → JArr
  | [] => .nil
  | s :: r => .cons (.str s) (jarrOfStrings r)

/-- Models `parseMeetingAnalysis` (llm.js 533–574): extract the greedy brace
block and `JSON.parse` it, reading the result's fields with `||` defaults; on
no block or a parse failure, fall back to heuristic text scanning.  The outer
`catch` of the source is unreachable in this pure model. -/
def parseMeetingAnalysis (analysisText : String) : MeetingAnalysis :=
  let fallback : MeetingAnalysis :=
    { summary := .str "Meeting was analyzed but could not extract structured summary",
      designChanges := .arr .nil,
      actionItems := .arr (jarrOfStrings (extractActionItemsFromText analysisText)),
      shouldUpdate := .bool (jsIncludes (jsToLower analysisText) "should update" ||
                             jsIncludes (jsToLower analysisText) "needs update"),
      updatedContent := .str (extractUpdatedContentFromText analysisText),
      reasoning := .str "Text-based analysis" }
  match jsonBlockMatch analysisText with
  | some m =>
    (match jsonParse m with
     | some analysis =>
       { summary := jor (jfield analysis "summary") (.str "No summary provided"),
         designChanges := jor (jfield analysis "designChanges") (.arr .nil),
         actionItems := jor (jfield analysis "actionItems") (.arr .nil),
         shouldUpdate := jor (jfield analysis "shouldUpdate") (.bool false),
         updatedContent := jor (jfield analysis "updatedContent") (.str ""),
         reasoning := jor (jfield analysis "reasoning") (.str "No reasoning provided") }
     | none => fallback)
  | none => fallback

end LLMService

/-! ## Confluence client (`ConfluenceService`, pr-reviewer.js 165–560) -/

namespace ConfluenceService

/-- Attempt of `/\/pages\/(\d+)\//` at the head of the input (the greedy
`\d+` must be followed by `/`; giving digits back cannot help, so the match
is the maximal digit run). -/
def pagesPatternAt (cs : List Char) : Option (List Char) :=
  if startsWithL ['/', 'p', 'a', 'g', 'e', 's', '/'] cs then
    let r := cs.drop 7
    let ds := r.takeWhile Char.isDigit
    if !ds.isEmpty && startsWithL ['/'] (r.dropWhile Char.isDigit) then some ds else none
  else none

/-- Leftmost match of `/\/pages\/(\d+)\//`. -/
def findPagesPattern : List Char → Option (List Char)
  | [] => none
  | c :: rest =>
    match pagesPatternAt (c :: rest) with
    | some ds => some ds
    | none => findPagesPattern rest

/-- Attempt of `/pageId=(\d+)/` at the head of the input. -/
def pageIdEqPatternAt (cs : List Char) : Option (List Char) :=
  if startsWithL ['p', 'a', 'g', 'e', 'I', 'd', '='] cs then
    let ds := (cs.drop 7).takeWhile Char.isDigit
    if ds.isEmpty then none else some ds
  else none

/-- Leftmost match of `/pageId=(\d+)/`. -/
def findPageIdEqPattern : List Char → Option (List Char)
  | [] => none
  | c :: rest =>
    match pageIdEqPatternAt (c :: rest) with
    | some ds => some ds
    | none => findPageIdEqPattern rest

/-- Attempt of `/\/(\d+)\/[^\/]*$/` at the head of the input: slash, digits,
slash, then a slash-free tail running to the end. -/
def trailingPatternAt (cs : List Char) : Option (List Char) :=
  match cs with
  | '/' :: r =>
    let ds := r.takeWhile Char.isDigit
    if ds.isEmpty then none
    else
      (match r.dropWhile Char.isDigit with
       | '/' :: tail => if tail.all (fun c => !(c = '/')) then some ds else none
       | _ => none)
  | _ => none

/-- Leftmost match of `/\/(\d+)\/[^\/]*$/`. -/
def findTrailingPattern : List Char → Option (List Char)
  | [] => none
  | c :: rest =>
    match trailingPatternAt (c :: rest) with
    | some ds => some ds
    | none => findTrailingPattern rest

/-- Models `extractPageId` (pr-reviewer.js 205–231): the ordered patterns
`/\/pages\/(\d+)\//`, `/pageId=(\d+)/`, `/\/(\d+)\/[^\/]*$/`; the first
pattern with a match wins, each taking its leftmost match; `null` (here
`none`) when none matches.  The body cannot throw, so the `catch` arm that
also returns `null` is unreachable. -/
def extractPageId (confluenceUrl : String) : Option String :=
  match findPagesPattern confluenceUrl.data with
  | some ds => some ⟨ds⟩
  | none =>
    match findPageIdEqPattern confluenceUrl.data with
    | some ds => some ⟨ds⟩
    | none =>
      match findTrailingPattern confluenceUrl.data with
      | some ds => some ⟨ds⟩
      | none => none

/-- `body.storage` subobject of the update payload. -/
structure StorageBody where
  value : String
  representation : String
  deriving DecidableEq

/-- `body` subobject of the update payload. -/
structure PageBodyWrap where
  storage : StorageBody
  deriving DecidableEq

/-- `version` subobject of the update payload. -/
structure VersionBody where
  number : Int
  message : String
  deriving DecidableEq

/-- The `PUT /pages/{id}` JSON body built by `updatePageContent`
(pr-reviewer.js 324–339); `type'` models the `type` field. -/
structure UpdateBody where
  id : String
  type' : String
  status : String
  title : String
  body : PageBodyWrap
  version : VersionBody
  deriving DecidableEq

/-- The update payload: note `version.number = currentVersion + 1`. -/
def mkUpdateData (pageId newContent title : String) (currentVersion : Int)
    (status : String) : UpdateBody :=
  { id := pageId,
    type' := "page",
    status := status,
    title := title,
    body := { storage := { value := newContent, representation := "storage" } },
    version := { number := currentVersion + 1, message := "Updated from meeting summary tool" } }

/-- Result record of a successful `updatePageContent`. -/
structure UpdateResult where
  success : Bool
  pageData : JVal
  pageId : String
  deriving DecidableEq

/-- The error mapping of `updatePageContent` (pr-reviewer.js 355–380):
404, 401/403, 409 and 400 become `Error`s with fixed messages, anything else
is re-thrown as-is. -/
def updateErrorFor (pageId : String) (e : AxiosErr) : JsErr :=
  if e.status = some 404 then .err ("Confluence page with ID " ++ pageId ++ " not found")
  else if e.status = some 401 || e.status = some 403 then
    .err "Unauthorized to update Confluence page. Check your API token and permissions."
  else if e.status = some 409 then
    .err "Confluence page has been modified by someone else. Please refresh and try again."
  else if e.status = some 400 then
    let errorDetails := jor (jchain e.data "errors") (jor e.data (.str "Unknown validation error"))
    .err ("Bad request when updating Confluence page: " ++ ((jsonStringify errorDetails).getD "undefined"))
  else .raw e

/-- Models `updatePageContent` (pr-reviewer.js 320–381).  `put` is the remote
write; the returned list is every write request issued — always exactly one,
there is no retry.  On success the page data is returned; on failure the
mapped error is thrown. -/
def updatePageContent (put : UpdateBody → Except AxiosErr JVal)
    (pageId newContent title : String) (currentVersion : Int) (status : String) :
    List UpdateBody × Except JsErr UpdateResult :=
  let updateData := mkUpdateData pageId newContent title currentVersion status
  ([updateData],
    match put updateData with
    | .ok data => .ok { success := true, pageData := data, pageId := pageId }
    | .error e => .error (updateErrorFor pageId e))

/-- Fields read by `getPageVersion` (pr-reviewer.js 388–404). -/
structure PageVersionInfo where
  version : Int
  title : String
  status : String
  content : String
  pageId : String
  deriving DecidableEq

/-- Models `getPageVersion` (pr-reviewer.js 388–404): one read returning
`{version: pageData.version?.number || 1, title: pageData.title,
status: pageData.status || 'current', content: pageData.body?.storage?.value
|| '', pageId}`.  The service reports versions as integer JSON numbers and
title/status/content as strings; other shapes fall back to the defaults in
this model (`""` for a missing title). -/
def getPageVersion (get : String → Except AxiosErr JVal) (pageId : String) :
    Except JsErr PageVersionInfo :=
  match get pageId with
  | .error e => .error (.raw e)
  | .ok pageData =>
    match jaccessE pageData "version" with
    | .error e => .error e
    | .ok ver =>
      .ok { version :=
              (match jchain ver "number" with
               | .num m 0 => if m = 0 then 1 else m
               | _ => 1),
            title :=
              (match jfield pageData "title" with
               | .str s => s
               | _ => ""),
            status :=
              (match jfield pageData "status" with
               | .str s => if s = "" then "current" else s
               | _ => "current"),
            content :=
              (match jchain (jchain (jfield pageData "body") "storage") "value" with
               | .str s => s
               | _ => ""),
            pageId := pageId }

/-- The environment of the Confluence write path: remote read and write plus
`today`, the value of `new Date().toLocaleDateString()`. -/
structure ConfEnv where
  get : String → Except AxiosErr JVal
  put : UpdateBody → Except AxiosErr JVal
  today : String

/-- Result record of `appendToPage`. -/
structure AppendResult where
  success : Bool
  pageId : String
  previousVersion : Int
  newVersion : Int
  url : String
  appendedContent : String
  deriving DecidableEq

/-- Models `appendToPage` (pr-reviewer.js 451–496): resolve the page id, read
the current page, sanitize only the new fragment, append a timestamped
section after the existing content and write it back with the version just
read.  Returns every write request issued along with the result. -/
def appendToPage (env : ConfEnv) (confluenceUrl : String) (additionalContent : JVal)
    (sectionTitle : String) : List UpdateBody × Except JsErr AppendResult :=
  match extractPageId confluenceUrl with
  | none => ([], .error (.err "Could not extract page ID from Confluence URL"))
  | some pageId =>
    match getPageVersion env.get pageId with
    | .error e => ([], .error e)
    | .ok pageInfo =>
      let cleanContent := sanitizeContentForConfluence additionalContent
      let newSection :=
        "\n<h2>" ++ sectionTitle ++ " - " ++ env.today ++ "</h2>\n" ++ cleanContent ++ "\n<hr />\n"
      let updatedContent := pageInfo.content ++ newSection
      let r := updatePageContent env.put pageId updatedContent pageInfo.title
        pageInfo.version pageInfo.status
      (r.1,
        match r.2 with
        | .ok _ =>
          .ok { success := true, pageId := pageId, previousVersion := pageInfo.version,
                newVersion := pageInfo.version + 1, url := confluenceUrl,
                appendedContent := newSection }
        | .error e => .error e)

/-- Models `getPageContent` (pr-reviewer.js 238–270): resolve the page id,
fetch it, and wrap the response as `{content, url, pageId}`; 404 and 401/403
map to fixed errors, anything else re-throws. -/
def getPageContent (get : String → Except AxiosErr JVal) (confluenceUrl : String) :
    Except JsErr JVal :=
  match extractPageId confluenceUrl with
  | none => .error (.err "Could not extract page ID from Confluence URL")
  | some pageId =>
    match get pageId with
    | .ok pageData =>
      .ok (.obj (.cons "content" pageData (.cons "url" (.str confluenceUrl)
        (.cons "pageId" (.str pageId) .nil))))
    | .error e =>
      if e.status = some 404 then
        .error (.err ("Confluence page with ID " ++ pageId ++ " not found"))
      else if e.status = some 401 || e.status = some 403 then
        .error (.err "Unauthorized to access Confluence page. Check your API token and permissions.")
      else .error (.raw e)

/-- One pass of `.replace(/<[^>]*>/g, ' ')`: a `<` with a later `>` is a tag
and collapses to a space; a `<` with no closing `>` stays. -/
def stripTagsGo : Nat → List Char → List Char
  | 0, cs => cs
  | _ + 1, [] => []
  | fuel + 1, '<' :: rest =>
    (match rest.dropWhile (fun c => !(c = '>')) with
     | '>' :: r2 => ' ' :: stripTagsGo fuel r2
     | _ => '<' :: stripTagsGo fuel rest)
  | fuel + 1, c :: rest => c :: stripTagsGo fuel rest

/-- `.replace(/<[^>]*>/g, ' ')`. -/
def stripTags (cs : List Char) : List Char := stripTagsGo cs.length cs

/-- `.replace(/&nbsp;/g, ' ')`. -/
def stripNbspGo : Nat → List Char → List Char
  | 0, cs => cs
  | _ + 1, [] => []
  | fuel + 1, c :: rest =>
    if startsWithL ['&', 'n', 'b', 's', 'p', ';'] (c :: rest) then
      ' ' :: stripNbspGo fuel ((c :: rest).drop 6)
    else c :: stripNbspGo fuel rest

/-- `.replace(/&nbsp;/g, ' ')`. -/
def stripNbsp (cs : List Char) : List Char := stripNbspGo cs.length cs

/-- One pass of `.replace(/&[a-zA-Z0-9#]+;/g, ' ')`. -/
def stripEntitiesGo : Nat → List Char → List Char
  | 0, cs => cs
  | _ + 1, [] => []
  | fuel + 1, '&' :: rest =>
    (match rest.takeWhile isEntityChar, rest.dropWhile isEntityChar with
     | _ :: _, ';' :: r2 => ' ' :: stripEntitiesGo fuel r2
     | _, _ => '&' :: stripEntitiesGo fuel rest)
  | fuel + 1, c :: rest => c :: stripEntitiesGo fuel rest

/-- `.replace(/&[a-zA-Z0-9#]+;/g, ' ')`. -/
def stripEntities (cs : List Char) : List Char := stripEntitiesGo cs.length cs

/-- `.replace(/\s+/g, ' ')`. -/
def collapseWsGo : Nat → List Char → List Char
  | 0, cs => cs
  | _ + 1, [] => []
  | fuel + 1, c :: rest =>
    if jsSpace c then ' ' :: collapseWsGo fuel (rest.dropWhile jsSpace)
    else c :: collapseWsGo fuel rest

/-- `.replace(/\s+/g, ' ')`. -/
def collapseWs (cs : List Char) : List Char := collapseWsGo cs.length cs

/-- Models `extractTextContent` (pr-reviewer.js 277–309): the first truthy of
four optional chains selects the stored markup, which is flattened to plain
text and trimmed; `''` when none is truthy.  A truthy non-string — on which
the `.replace` chain would throw into the local `catch` — also yields `''`. -/
def extractTextContent (pageData : JVal) : String :=
  let c1 := jchain (jchain (jchain (jchain pageData "content") "body") "storage") "value"
  let c2 := jchain (jchain (jchain (jchain pageData "content") "body") "view") "value"
  let c3 := jchain (jchain (jchain pageData "body") "storage") "value"
  let c4 := jchain (jchain (jchain pageData "body") "view") "value"
  let content :=
    if c1.truthy then c1
    else if c2.truthy then c2
    else if c3.truthy then c3
    else if c4.truthy then c4
    else .str ""
  match content with
  | .str s =>
    if s = "" then ""
    else ⟨jsTrimL (collapseWs (stripEntities (stripNbsp (stripTags s.data))))⟩
  | _ => ""

end ConfluenceService

/-! ## GitHub service (`src/services/github.js`) -/

namespace GitHubService

/-- Separator class `[_\s]` between the words of a key pattern. -/
def keySepChar (c : Char) : Bool := c = '_' || jsSpace c

/-- Match the literal words of a key pattern (given lower-case)
case-insensitively at the head of the input, `[_\s]*` between consecutive
words; returns the rest.  The separator run is deterministic because the
following word starts with a letter. -/
def matchKeyWords : List (List Char) → List Char → Option (List Char)
  | [], cs => some cs
  | [w], cs =>
    (match ciStrip w cs with
     | some (_, r) => some r
     | none => none)
  | w :: ws, cs =>
    match ciStrip w cs with
    | some (_, r) => matchKeyWords ws (r.dropWhile keySepChar)
    | none => none

/-- After the key, `[:\s]*([^\s\n]+)`: a greedy run of colons and whitespace,
then at least one non-whitespace character, captured greedily.  When the run
reaches the end of the input the engine backs off just to the last colon of
the run, which becomes the capture. -/
def matchUrlCapture (cs : List Char) : Option (List Char) :=
  let sep := cs.takeWhile (fun c => c = ':' || jsSpace c)
  let r := cs.dropWhile (fun c => c = ':' || jsSpace c)
  match r with
  | _ :: _ => some (r.takeWhile (fun c => !(jsSpace c)))
  | [] => if sep.contains ':' then some [':'] else none

/-- Leftmost match of one key pattern followed by the URL capture. -/
def findKeyPattern (words : List (List Char)) : List Char → Option (List Char)
  | [] => none
  | c :: rest =>
    match matchKeyWords words (c :: rest) with
    | some r =>
      (match matchUrlCapture r with
       | some cap => some cap
       | none => findKeyPattern words rest)
    | none => findKeyPattern words rest

/-- Models `extractConfluenceUrl` (github.js 89–117): the four ordered
case-insensitive key patterns
`confluence_design_document_url`, `confluence[_\s]*design[_\s]*document[_\s]*url`,
`design[_\s]*document[_\s]*url` and `confluence[_\s]*url`, each with
`[:\s]*([^\s\n]+)`; the first pattern with a match wins and its capture is
returned trimmed (a no-op, as the capture contains no whitespace). -/
def extractConfluenceUrl (prDescription : String) : Option String :=
  match findKeyPattern ["confluence_design_document_url".data] prDescription.data with
  | some cap => some (jsTrim ⟨cap⟩)
  | none =>
    match findKeyPattern ["confluence".data, "design".data, "document".data, "url".data]
        prDescription.data with
    | some cap => some (jsTrim ⟨cap⟩)
    | none =>
      match findKeyPattern ["design".data, "document".data, "url".data] prDescription.data with
      | some cap => some (jsTrim ⟨cap⟩)
      | none =>
        match findKeyPattern ["confluence".data, "url".data] prDescription.data with
        | some cap => some (jsTrim ⟨cap⟩)
        | none => none

end GitHubService

/-! ## Review orchestrator (`PRReviewer`, pr-reviewer.js 9–157) -/

namespace PRReviewer

/-- The `pr` object of `getPullRequestDetails`, restricted to the fields the
pipeline reads directly; everything else reaches only the prompt oracle. -/
structure PRInfo where
  title : Option String
  body : Option String
  deriving DecidableEq

/-- Result of `getPullRequestDetails`. -/
structure PRData where
  pr : Option PRInfo
  diff : Option String
  prNumber : Nat
  deriving DecidableEq

/-- Effects of a review run: comments posted (attempts included, in order),
Confluence page fetches and model calls. -/
structure ReviewEffects where
  comments : List (Nat × String)
  pageFetches : Nat
  llmCalls : Nat
  deriving DecidableEq

/-- Result object of `reviewPR` (fields appearing in any of its `return`
sites; absent fields are `none`). -/
structure ReviewOutcome where
  success : Bool
  prNumber : Nat
  message : Option String
  designDocUrl : Option String
  analysis : Option String
  error : Option String
  deriving DecidableEq

/-- Environment of the review pipeline: the GitHub reads and writes, the
Confluence read, the model call, and the clock. -/
structure ReviewEnv where
  prDetails : Nat → Except JsErr PRData
  confGet : String → Except AxiosErr JVal
  analyze : PRData → JVal → Except JsErr String
  postComment : Nat → String → Except JsErr Unit
  now : String

/-- The notice message for a missing design-document URL. -/
def missingDocMessage : String :=
  "No confluence design document URL found in PR description. Please add confluence_design_document_url to the PR description."

/-- Comment text of the catch-all error handler of `reviewPR`. -/
def errorCommentText (msg : String) : String :=
  "## ❌ Review Failed\n\nFailed to complete the design document review due to an error:\n\n```\n" ++
    msg ++ "\n```\n\nPlease check the configuration and try again."

/-- The catch-all of `reviewPR` (pr-reviewer.js 101–113): attempt to post an
error comment — failures of that post are swallowed — then rethrow. -/
def reviewCatch (prNumber : Nat) (e : JsErr) (eff : ReviewEffects) :
    Except JsErr ReviewOutcome × ReviewEffects :=
  (.error e, { eff with comments := eff.comments ++ [(prNumber, errorCommentText e.message)] })

/-- Models `reviewPR` (pr-reviewer.js 41–114): fetch the PR, extract the
design-document URL from its description, and either post the
missing-document notice and return `success:false`, or fetch the document,
run the model and post the formatted review. -/
def reviewPR (env : ReviewEnv) (prNumber : Nat) :
    Except JsErr ReviewOutcome × ReviewEffects :=
  let eff0 : ReviewEffects := { comments := [], pageFetches := 0, llmCalls := 0 }
  match env.prDetails prNumber with
  | .error e => reviewCatch prNumber e eff0
  | .ok prData =>
    match prData.pr with
    | none => reviewCatch prNumber (.err ("Could not fetch PR #" ++ toString prNumber)) eff0
    | some pr =>
      match GitHubService.extractConfluenceUrl (pr.body.getD "") with
      | none =>
        let comment := "## ⚠️ Missing Design Document\n\n" ++ missingDocMessage
        let eff1 := { eff0 with comments := [(prNumber, comment)] }
        (match env.postComment prNumber comment with
         | .error pe => reviewCatch prNumber pe eff1
         | .ok _ =>
           (.ok { success := false, prNumber := prNumber, message := some missingDocMessage,
                  designDocUrl := none, analysis := none, error := none }, eff1))
      | some confluenceUrl =>
        let eff1 := { eff0 with pageFetches := 1 }
        match ConfluenceService.getPageContent env.confGet confluenceUrl with
        | .error e => reviewCatch prNumber e eff1
        | .ok designDoc =>
          if !(jfield designDoc "content").truthy then
            reviewCatch prNumber (.err "Could not fetch design document content from Confluence") eff1
          else
            let designDoc :=
              jset designDoc "textContent" (.str (ConfluenceService.extractTextContent designDoc))
            let eff2 := { eff1 with llmCalls := 1 }
            match env.analyze prData designDoc with
            | .error e => reviewCatch prNumber e eff2
            | .ok analysis =>
              let formatted := LLMService.formatAsGitHubComment analysis confluenceUrl env.now
              let eff3 := { eff2 with comments := [(prNumber, formatted)] }
              (match env.postComment prNumber formatted with
               | .error pe => reviewCatch prNumber pe eff3
               | .ok _ =>
                 (.ok { success := true, prNumber := prNumber,
                        message := some "PR review completed and comment posted successfully",
                        designDocUrl := some confluenceUrl, analysis := some analysis,
                        error := none }, eff3))

/-- The record pushed by the `catch` of the batch loop
(pr-reviewer.js 147–151). -/
def reviewFailureRecord (prNumber : Nat) (e : JsErr) : ReviewOutcome :=
  { success := false, prNumber := prNumber, message := none, designDocUrl := none,
    analysis := none, error := some e.message }

/-- The outcome recorded for one PR of the batch: `reviewPR`'s result, or the
failure record of the loop's `catch`. -/
def reviewItemOutcome (env : ReviewEnv) (n : Nat) : ReviewOutcome :=
  match (reviewPR env n).1 with
  | .ok out => out
  | .error e => reviewFailureRecord n e

/-- Models `reviewMultiplePRs` (pr-reviewer.js 139–156): a sequential loop
with a per-item `try`/`catch`; one item's failure is recorded and the loop
continues.  Effects of all runs accumulate in order. -/
def reviewMultiplePRs (env : ReviewEnv) : List Nat → List ReviewOutcome × ReviewEffects
  | [] => ([], { comments := [], pageFetches := 0, llmCalls := 0 })
  | n :: rest =>
    let r := reviewPR env n
    let item :=
      match r.1 with
      | .ok out => out
      | .error e => reviewFailureRecord n e
    let restR := reviewMultiplePRs env rest
    (item :: restR.1,
     { comments := r.2.comments ++ restR.2.comments,
       pageFetches := r.2.pageFetches + restR.2.pageFetches,
       llmCalls := r.2.llmCalls + restR.2.llmCalls })

end PRReviewer

/-! ## Meeting orchestrator (`MeetingSummarizer`, meeting-summarizer.js 8–220) -/

namespace MeetingSummarizer

/-- One meeting request. -/
structure MeetingData where
  confluenceUrl : String
  meetingSummary : String
  meetingTranscript : Option String
  deriving DecidableEq

/-- Environment of the meeting pipeline: the Confluence read/write
environment and the model call, keyed by the full meeting-analysis input
(design document, summary, transcript, URL). -/
structure MeetingEnv where
  conf : ConfluenceService.ConfEnv
  llmRaw : JVal → String → Option String → String → Except JsErr String

/-- Result object of `processMeeting` (fields of either `return` shape of
the pipeline and of the batch `catch`; absent fields are `none`). -/
structure MeetingOutcome where
  success : Bool
  summary : Option JVal
  actionItems : Option JVal
  updatedContent : Option Bool
  designDocumentUrl : Option String
  updateDetails : Option (Option ConfluenceService.AppendResult)
  error : Option String
  confluenceUrl : Option String
  deriving DecidableEq

/-- Models `analyzeMeetingContent` (llm.js 337–445) at the HTTP boundary: the
call is the oracle `llmRaw` applied to the meeting-analysis input, its text
is parsed by `parseMeetingAnalysis`. -/
def analyzeMeetingContent (env : MeetingEnv) (designDocument : JVal) (md : MeetingData) :
    Except JsErr LLMService.MeetingAnalysis :=
  match env.llmRaw designDocument md.meetingSummary md.meetingTranscript md.confluenceUrl with
  | .error e => .error e
  | .ok raw => .ok (LLMService.parseMeetingAnalysis raw)

/-- Models `processMeeting` (meeting-summarizer.js 36–95): fetch the design
document, analyze the meeting, and append to the page only when the analysis
asks for an update and carries content.  Returns every write request issued
along with the result. -/
def processMeeting (env : MeetingEnv) (md : MeetingData) :
    List ConfluenceService.UpdateBody × Except JsErr MeetingOutcome :=
  match ConfluenceService.getPageContent env.conf.get md.confluenceUrl with
  | .error e => ([], .error e)
  | .ok designDoc =>
    if !(jfield designDoc "content").truthy then
      ([], .error (.err "Could not fetch design document content from Confluence"))
    else
      let designDoc :=
        jset designDoc "textContent"
          (.str (ConfluenceService.extractTextContent (jfield designDoc "content")))
      match analyzeMeetingContent env designDoc md with
      | .error e => ([], .error e)
      | .ok analysisResult =>
        if analysisResult.shouldUpdate.truthy && analysisResult.updatedContent.truthy then
          let r := ConfluenceService.appendToPage env.conf md.confluenceUrl
            analysisResult.updatedContent "Meeting Discussion Update"
          (r.1,
            match r.2 with
            | .error e => .error e
            | .ok upd =>
              .ok { success := true, summary := some analysisResult.summary,
                    actionItems := some analysisResult.actionItems,
                    updatedContent := some true, designDocumentUrl := some md.confluenceUrl,
                    updateDetails := some (some upd), error := none, confluenceUrl := none })
        else
          ([], .ok { success := true, summary := some analysisResult.summary,
                     actionItems := some analysisResult.actionItems,
                     updatedContent := some false, designDocumentUrl := some md.confluenceUrl,
                     updateDetails := some none, error := none, confluenceUrl := none })

/-- The record pushed by the `catch` of the batch loop
(meeting-summarizer.js 110–114). -/
def meetingFailureRecord (md : MeetingData) (e : JsErr) : MeetingOutcome :=
  { success := false, summary := none, actionItems := none, updatedContent := none,
    designDocumentUrl := none, updateDetails := none, error := some e.message,
    confluenceUrl := some md.confluenceUrl }

/-- The outcome recorded for one meeting of the batch. -/
def meetingItemOutcome (env : MeetingEnv) (md : MeetingData) : MeetingOutcome :=
  match (processMeeting env md).2 with
  | .ok out => out
  | .error e => meetingFailureRecord md e

/-- Models `processMultipleMeetings` (meeting-summarizer.js 102–119): the
same sequential per-item `try`/`catch` isolation as the PR batch. -/
def processMultipleMeetings (env : MeetingEnv) :
    List MeetingData → List ConfluenceService.UpdateBody × List MeetingOutcome
  | [] => ([], [])
  | md :: rest =>
    let r := processMeeting env md
    let item :=
      match r.2 with
      | .ok out => out
      | .error e => meetingFailureRecord md e
    let restR := processMultipleMeetings env rest
    (r.1 ++ restR.1, item :: restR.2)

end MeetingSummarizer

/-! ## Script-freedom vocabulary

A live `<script>` element, in any capitalisation, starts with `<`, then
`s`/`S`, then `c`/`C`.  `ltScFree` checks that no position of a string starts
such a sequence; it is the statement language for the sanitizer's injection
safety. -/

/-- `s` or `S`. -/
def sIsh (c : Char) : Bool := c = 's' || c = 'S'

/-- `c` or `C`. -/
def cIsh (c : Char) : Bool := c = 'c' || c = 'C'

/-- One scan step: a `<` here must not be followed by `s`/`S` then `c`/`C`. -/
def stepOk (c : Char) (rest : List Char) : Bool :=
  if c = '<' then
    match rest with
    | c1 :: c2 :: _ => !(sIsh c1 && cIsh c2)
    | _ => true
  else true

/-- No `<` of the list opens a (possibly capitalised) `sc` sequence — in
particular no `<script`/`<SCRIPT`/… tag occurs anywhere. -/
def ltScFree : List Char → Bool
  | [] => true
  | c :: rest => stepOk c rest && ltScFree rest

/-- `ltScFree` on a string. -/
def ltScFreeStr (s : String) : Bool := ltScFree s.data

/-! ## Theorems -/

/-- Digits are absent from a digit-free list's `takeWhile`. -/
theorem takeWhile_digit_nil {cs : List Char} (h : ∀ c ∈ cs, c.isDigit = false) :
    cs.takeWhile Char.isDigit = [] := by
  cases cs with
  | nil => rfl
  | cons c r => simp [List.takeWhile_cons, h c (by simp)]

/-- A digit-free input defeats `/\/pages\/(\d+)\//` at any one position. -/
theorem pagesPatternAt_none {cs : List Char} (h : ∀ c ∈ cs, c.isDigit = false) :
    ConfluenceService.pagesPatternAt cs = none := by
  unfold ConfluenceService.pagesPatternAt
  have hsub : ∀ x ∈ cs.drop 7, x.isDigit = false := fun x hx => h x (List.drop_subset _ _ hx)
  simp only [takeWhile_digit_nil hsub]
  simp

/-- A digit-free input defeats `/\/pages\/(\d+)\//`. -/
theorem findPagesPattern_none {cs : List Char} (h : ∀ c ∈ cs, c.isDigit = false) :
    ConfluenceService.findPagesPattern cs = none := by
  induction cs with
  | nil => rfl
  | cons c rest ih =>
    rw [ConfluenceService.findPagesPattern, pagesPatternAt_none h]
    exact ih (fun x hx => h x (List.mem_cons_of_mem _ hx))

/-- A digit-free input defeats `/pageId=(\d+)/` at any one position. -/
theorem pageIdEqPatternAt_none {cs : List Char} (h : ∀ c ∈ cs, c.isDigit = false) :
    ConfluenceService.pageIdEqPatternAt cs = none := by
  unfold ConfluenceService.pageIdEqPatternAt
  have hsub : ∀ x ∈ cs.drop 7, x.isDigit = false := fun x hx => h x (List.drop_subset _ _ hx)
  simp only [takeWhile_digit_nil hsub]
  simp

/-- A digit-free input defeats `/pageId=(\d+)/`. -/
theorem findPageIdEqPattern_none {cs : List Char} (h : ∀ c ∈ cs, c.isDigit = false) :
    ConfluenceService.findPageIdEqPattern cs = none := by
  induction cs with
  | nil => rfl
  | cons c rest ih =>
    rw [ConfluenceService.findPageIdEqPattern, pageIdEqPatternAt_none h]
    exact ih (fun x hx => h x (List.mem_cons_of_mem _ hx))

/-- A digit-free input defeats `/\/(\d+)\/[^\/]*$/` at any one position. -/
theorem trailingPatternAt_none {cs : List Char} (h : ∀ c ∈ cs, c.isDigit = false) :
    ConfluenceService.trailingPatternAt cs = none := by
  unfold ConfluenceService.trailingPatternAt
  split
  · next r =>
    have hsub : ∀ x ∈ r, x.isDigit = false :=
      fun x hx => h x (List.mem_cons_of_mem _ hx)
    simp only [takeWhile_digit_nil hsub]
    simp
  · rfl

/-- A digit-free input defeats `/\/(\d+)\/[^\/]*$/`. -/
theorem findTrailingPattern_none {cs : List Char} (h : ∀ c ∈ cs, c.isDigit = false) :
    ConfluenceService.findTrailingPattern cs = none := by
  induction cs with
  | nil => rfl
  | cons c rest ih =>
    rw [ConfluenceService.findTrailingPattern, trailingPatternAt_none h]
    exact ih (fun x hx => h x (List.mem_cons_of_mem _ hx))

/-- C9: page-id extraction tries `/pages/(digits)/`, then `pageId=(digits)`,
then a trailing `/(digits)/segment`, first match winning: the two sample URLs
yield `"123456"` and `"42"`, and a URL containing no digit at all yields
`none` rather than an error. -/
theorem extractPageId_spec :
    ConfluenceService.extractPageId
        "https://x.atlassian.net/wiki/spaces/S/pages/123456/Title" = some "123456" ∧
    ConfluenceService.extractPageId
        "https://x.atlassian.net/wiki/display/SPACE/Page+Title?pageId=42" = some "42" ∧
    ∀ url : String, (∀ c ∈ url.data, c.isDigit = false) →
      ConfluenceService.extractPageId url = none := by
  refine ⟨by decide, by decide, ?_⟩
  intro url h
  unfold ConfluenceService.extractPageId
  rw [findPagesPattern_none h, findPageIdEqPattern_none h, findTrailingPattern_none h]

/-- C9 witness: a concrete digit-free URL maps to `none`, via
`extractPageId_spec`. -/
theorem extractPageId_spec_witness :
    ConfluenceService.extractPageId "https://x.example.net/wiki/alpha/beta" = none :=
  extractPageId_spec.2.2 "https://x.example.net/wiki/alpha/beta" (by decide)

/-- C5: in Azure mode the standard-format request bodies carry
`max_completion_tokens` exactly when the configured API-version string is
lexicographically `>= '2024-08-01-preview'` and `max_tokens` otherwise —
with the respective 2000/3000 limits — and exactly one of the two fields is
ever present. -/
theorem tokenParamChoice (modelOrDeployment apiVersion modelName systemPrompt prompt : String) :
    ((LLMService.analyzeChangesStandardBody modelOrDeployment true apiVersion modelName
        systemPrompt prompt).max_completion_tokens =
      if jsStrGe apiVersion "2024-08-01-preview" then some 2000 else none) ∧
    ((LLMService.analyzeChangesStandardBody modelOrDeployment true apiVersion modelName
        systemPrompt prompt).max_tokens =
      if jsStrGe apiVersion "2024-08-01-preview" then none else some 2000) ∧
    ((LLMService.analyzeMeetingStandardBody modelOrDeployment true apiVersion modelName
        systemPrompt prompt).max_completion_tokens =
      if jsStrGe apiVersion "2024-08-01-preview" then some 3000 else none) ∧
    ((LLMService.analyzeMeetingStandardBody modelOrDeployment true apiVersion modelName
        systemPrompt prompt).max_tokens =
      if jsStrGe apiVersion "2024-08-01-preview" then none else some 3000) ∧
    ((LLMService.analyzeChangesStandardBody modelOrDeployment true apiVersion modelName
        systemPrompt prompt).max_completion_tokens.isSome =
      !(LLMService.analyzeChangesStandardBody modelOrDeployment true apiVersion modelName
        systemPrompt prompt).max_tokens.isSome) ∧
    ((LLMService.analyzeMeetingStandardBody modelOrDeployment true apiVersion modelName
        systemPrompt prompt).max_completion_tokens.isSome =
      !(LLMService.analyzeMeetingStandardBody modelOrDeployment true apiVersion modelName
        systemPrompt prompt).max_tokens.isSome) := by
  unfold LLMService.analyzeChangesStandardBody LLMService.analyzeMeetingStandardBody
  by_cases h : jsStrGe apiVersion "2024-08-01-preview" = true <;>
    simp [h]

/-- C4 counterexample: on the input `{choices:[{message:{}}]}` — an object,
hence in the claimed domain — the normalizer returns JavaScript `undefined`,
which is not a string, contradicting "returns a string for every raw
model-response value". -/
theorem extractContent_not_string_counterexample :
    LLMService.extractContentFromCustomResponse
        (.obj (.cons "choices" (.arr (.cons (.obj (.cons "message" (.obj .nil) .nil)) .nil)) .nil)) =
      .undef ∧
    (LLMService.extractContentFromCustomResponse
        (.obj (.cons "choices" (.arr (.cons (.obj (.cons "message" (.obj .nil) .nil)) .nil)) .nil))).isString =
      false := by
  exact ⟨by decide, by decide⟩

/-- C4 (amended): the normalizer never throws — a `TypeError` on a
`null`/`undefined` base is caught and becomes the fixed error string — and on
the three quoted shapes it returns `"X"`, `"Y"`, and the pretty-printed JSON
of `{"foo":1}`; but when a recognized nesting is present with the terminal
field missing, the raw field value (`undefined`) is passed through, so the
result is not a string on every input. -/
theorem extractContent_amended :
    LLMService.extractContentFromCustomResponse
        (.obj (.cons "choices"
          (.arr (.cons (.obj (.cons "message" (.obj (.cons "content" (.str "X") .nil)) .nil)) .nil))
          .nil)) = .str "X" ∧
    LLMService.extractContentFromCustomResponse
        (.obj (.cons "output"
          (.arr (.cons
            (.obj (.cons "type" (.str "message")
              (.cons "content"
                (.arr (.cons
                  (.obj (.cons "type" (.str "output_text") (.cons "text" (.str "Y") .nil)))
                  .nil))
                .nil)))
            .nil))
          .nil)) = .str "Y" ∧
    LLMService.extractContentFromCustomResponse (.obj (.cons "foo" (.num 1 0) .nil)) =
      .str "\x7b\n  \"foo\": 1\n\x7d" ∧
    LLMService.extractContentFromCustomResponse .null =
      .str "Error: Could not extract content from response" := by
  exact ⟨by decide, by decide, by decide, by decide⟩

/-- The sanitizer pipeline always emits a `<` (from a wrap, or kept from the
no-wrap condition). -/
theorem lt_mem_sanitizeWrapped (cs : List Char) :
    '<' ∈ ConfluenceService.sanitizeWrapped cs := by
  unfold ConfluenceService.sanitizeWrapped
  split
  · simp
  · next hC1 =>
    simp only [Bool.or_eq_true, Bool.not_eq_true', Bool.not_eq_true] at hC1
    push_neg at hC1
    simpa using hC1.1

/-- The sanitizer pipeline always emits a `<`. -/
theorem lt_mem_sanitizePipeline (cs : List Char) :
    '<' ∈ ConfluenceService.sanitizePipeline cs := by
  unfold ConfluenceService.sanitizePipeline
  split
  · simp
  · exact lt_mem_sanitizeWrapped cs

/-- C8: the sanitizer is total (the model is a Lean function, and the
source's `catch` arm is unreachable): every empty or non-string input yields
exactly `<p>No content provided</p>`, the plain-text input `"hello"` yields
`<p>hello</p>`, and no input yields the empty string. -/
theorem sanitize_total_fallbacks :
    (∀ v : JVal, v.truthy = false ∨ v.isString = false →
      ConfluenceService.sanitizeContentForConfluence v = "<p>No content provided</p>") ∧
    ConfluenceService.sanitizeContentForConfluence (.str "hello") = "<p>hello</p>" ∧
    (∀ v : JVal, ConfluenceService.sanitizeContentForConfluence v ≠ "") := by
  refine ⟨?_, by decide, ?_⟩
  · intro v hv
    cases v with
    | str s =>
      rcases hv with hv | hv
      · have : s = "" := by simpa [JVal.truthy] using hv
        simp [ConfluenceService.sanitizeContentForConfluence, this]
      · simp [JVal.isString] at hv
    | null => rfl
    | undef => rfl
    | bool b => rfl
    | num m e => rfl
    | arr xs => rfl
    | obj fs => rfl
  · intro v
    cases v with
    | str s =>
      by_cases hs : s = ""
      · simp [ConfluenceService.sanitizeContentForConfluence, hs]
      · simp only [ConfluenceService.sanitizeContentForConfluence, hs, if_false]
        intro heq
        have hd := congrArg String.data heq
        simp at hd
        exact (List.ne_nil_of_mem (lt_mem_sanitizePipeline s.data)) hd
    | null => simp [ConfluenceService.sanitizeContentForConfluence]
    | undef => simp [ConfluenceService.sanitizeContentForConfluence]
    | bool b => simp [ConfluenceService.sanitizeContentForConfluence]
    | num m e => simp [ConfluenceService.sanitizeContentForConfluence]
    | arr xs => simp [ConfluenceService.sanitizeContentForConfluence]
    | obj fs => simp [ConfluenceService.sanitizeContentForConfluence]

/-- C8 witness: the fallback clause of `sanitize_total_fallbacks` at the
concrete non-string input `null`, together with its concrete clauses. -/
theorem sanitize_total_fallbacks_witness :
    ConfluenceService.sanitizeContentForConfluence .null = "<p>No content provided</p>" ∧
    ConfluenceService.sanitizeContentForConfluence (.str "hello") = "<p>hello</p>" ∧
    ConfluenceService.sanitizeContentForConfluence (.str "hello") ≠ "" :=
  ⟨sanitize_total_fallbacks.1 .null (Or.inl rfl),
   sanitize_total_fallbacks.2.1,
   sanitize_total_fallbacks.2.2 (.str "hello")⟩

/-- C6 counterexample: the text `"The team agreed we should update the
design."` contains no JSON block at all, yet the fallback sets
`shouldUpdate` to `true` — because the heuristic turns any mention of
"should update"/"needs update" into `true` — contradicting the claim that
`shouldUpdate` is `false` for every unparsable response. -/
theorem parseMeetingAnalysis_counterexample :
    LLMService.jsonBlockMatch "The team agreed we should update the design." = none ∧
    (LLMService.parseMeetingAnalysis "The team agreed we should update the design.").shouldUpdate =
      .bool true := by
  exact ⟨by decide, by decide⟩

/-- C6 (amended): on every model response without a parsable JSON block — the
greedy `\{[\s\S]*\}` match fails or `JSON.parse` rejects it — the parser
returns, without throwing, the fallback record: the fixed non-empty summary,
no design changes, the heuristically scanned action items, and
`shouldUpdate` true exactly when the text mentions "should update" or
"needs update" case-insensitively (so `false` whenever it mentions
neither). -/
theorem parseMeetingAnalysis_amended (text : String)
    (h : ∀ m, LLMService.jsonBlockMatch text = some m → jsonParse m = none) :
    LLMService.parseMeetingAnalysis text =
      { summary := .str "Meeting was analyzed but could not extract structured summary",
        designChanges := .arr .nil,
        actionItems := .arr (LLMService.jarrOfStrings (LLMService.extractActionItemsFromText text)),
        shouldUpdate := .bool (jsIncludes (jsToLower text) "should update" ||
                               jsIncludes (jsToLower text) "needs update"),
        updatedContent := .str (LLMService.extractUpdatedContentFromText text),
        reasoning := .str "Text-based analysis" } ∧
    "Meeting was analyzed but could not extract structured summary" ≠ "" := by
  refine ⟨?_, by decide⟩
  unfold LLMService.parseMeetingAnalysis
  cases hm : LLMService.jsonBlockMatch text with
  | none => rfl
  | some m => simp [h m hm]

/-- C6 witness: `parseMeetingAnalysis_amended` at the block-free text
`"hello"`, whose result has `shouldUpdate = false` and the non-empty fallback
summary. -/
theorem parseMeetingAnalysis_amended_witness :
    LLMService.parseMeetingAnalysis "hello" =
      { summary := .str "Meeting was analyzed but could not extract structured summary",
        designChanges := .arr .nil,
        actionItems := .arr (LLMService.jarrOfStrings (LLMService.extractActionItemsFromText "hello")),
        shouldUpdate := .bool (jsIncludes (jsToLower "hello") "should update" ||
                               jsIncludes (jsToLower "hello") "needs update"),
        updatedContent := .str (LLMService.extractUpdatedContentFromText "hello"),
        reasoning := .str "Text-based analysis" } ∧
    (LLMService.parseMeetingAnalysis "hello").shouldUpdate = .bool false :=
  ⟨(parseMeetingAnalysis_amended "hello"
      (fun m hm => by rw [show LLMService.jsonBlockMatch "hello" = none from by decide] at hm; cases hm)).1,
   by decide⟩

/-- C1: every update sends exactly one write request, whose body carries
`version.number = currentVersion + 1`; and when the remote answers that
write with HTTP 409 the operation throws the version-conflict error — it
does not report success and it issues no second write. -/
theorem updatePageContent_versioning
    (put : ConfluenceService.UpdateBody → Except AxiosErr JVal)
    (pageId newContent title : String) (currentVersion : Int) (status : String) :
    (ConfluenceService.updatePageContent put pageId newContent title currentVersion status).1 =
      [ConfluenceService.mkUpdateData pageId newContent title currentVersion status] ∧
    (ConfluenceService.mkUpdateData pageId newContent title currentVersion status).version.number =
      currentVersion + 1 ∧
    ∀ e : AxiosErr,
      put (ConfluenceService.mkUpdateData pageId newContent title currentVersion status) = .error e →
      e.status = some 409 →
      (ConfluenceService.updatePageContent put pageId newContent title currentVersion status).2 =
        .error (.err "Confluence page has been modified by someone else. Please refresh and try again.") := by
  refine ⟨rfl, rfl, ?_⟩
  intro e hput h409
  unfold ConfluenceService.updatePageContent
  simp [hput, ConfluenceService.updateErrorFor, h409]

/-- C1 witness: a remote that answers 409 — the read version `5` produces a
write with `version.number = 6` and the version-conflict error, via
`updatePageContent_versioning`. -/
theorem updatePageContent_versioning_witness :
    (ConfluenceService.updatePageContent
        (fun _ => .error ⟨some 409, .null, "Request failed with status code 409"⟩)
        "123" "c" "T" 5 "current").1 =
      [ConfluenceService.mkUpdateData "123" "c" "T" 5 "current"] ∧
    (ConfluenceService.mkUpdateData "123" "c" "T" 5 "current").version.number = 6 ∧
    (ConfluenceService.updatePageContent
        (fun _ => .error ⟨some 409, .null, "Request failed with status code 409"⟩)
        "123" "c" "T" 5 "current").2 =
      .error (.err "Confluence page has been modified by someone else. Please refresh and try again.") := by
  have h := updatePageContent_versioning
    (fun _ => .error ⟨some 409, .null, "Request failed with status code 409"⟩)
    "123" "c" "T" 5 "current"
  exact ⟨h.1, h.2.1, h.2.2 _ rfl rfl⟩

/-- C2: when the page read succeeds, the append operation issues exactly one
write whose body is the previously stored content followed verbatim by the
timestamped section — `<h2>title - date</h2>`, the sanitized new fragment,
`<hr />` — so the prior content is an untouched prefix and only the new
fragment passes through the sanitizer. -/
theorem appendToPage_appendOnly (env : ConfluenceService.ConfEnv)
    (confluenceUrl : String) (additionalContent : JVal) (sectionTitle pageId : String)
    (info : ConfluenceService.PageVersionInfo) :
    ConfluenceService.extractPageId confluenceUrl = some pageId →
    ConfluenceService.getPageVersion env.get pageId = .ok info →
    (ConfluenceService.appendToPage env confluenceUrl additionalContent sectionTitle).1 =
      [ConfluenceService.mkUpdateData pageId
        (info.content ++ ("\n<h2>" ++ sectionTitle ++ " - " ++ env.today ++ "</h2>\n" ++
          ConfluenceService.sanitizeContentForConfluence additionalContent ++ "\n<hr />\n"))
        info.title info.version info.status] ∧
    (∃ rest : String,
      ((ConfluenceService.appendToPage env confluenceUrl additionalContent sectionTitle).1.map
        (fun b => b.body.storage.value)) = [info.content ++ rest]) := by
  intro h1 h2
  unfold ConfluenceService.appendToPage
  simp only [h1, h2]
  constructor
  · rfl
  · exact ⟨"\n<h2>" ++ sectionTitle ++ " - " ++ env.today ++ "</h2>\n" ++
      ConfluenceService.sanitizeContentForConfluence additionalContent ++ "\n<hr />\n", rfl⟩

/-- C2 witness: `appendToPage_appendOnly` at a concrete page whose stored
content is `"OLD"` at version 5. -/
theorem appendToPage_appendOnly_witness :
    (ConfluenceService.appendToPage
        { get := fun _ => .ok (.obj (.cons "version" (.obj (.cons "number" (.num 5 0) .nil))
            (.cons "title" (.str "T") (.cons "status" (.str "current")
              (.cons "body" (.obj (.cons "storage" (.obj (.cons "value" (.str "OLD") .nil)) .nil))
                .nil))))),
          put := fun _ => .ok .null, today := "1/1/2025" }
        "https://d.atlassian.net/wiki/spaces/S/pages/7/X" (.str "<p>new</p>") "Meeting Update").1 =
      [ConfluenceService.mkUpdateData "7"
        ("OLD" ++ ("\n<h2>" ++ "Meeting Update" ++ " - " ++ "1/1/2025" ++ "</h2>\n" ++
          ConfluenceService.sanitizeContentForConfluence (.str "<p>new</p>") ++ "\n<hr />\n"))
        "T" 5 "current"] ∧
    (∃ rest : String,
      ((ConfluenceService.appendToPage
          { get := fun _ => .ok (.obj (.cons "version" (.obj (.cons "number" (.num 5 0) .nil))
              (.cons "title" (.str "T") (.cons "status" (.str "current")
                (.cons "body" (.obj (.cons "storage" (.obj (.cons "value" (.str "OLD") .nil)) .nil))
                  .nil))))),
            put := fun _ => .ok .null, today := "1/1/2025" }
          "https://d.atlassian.net/wiki/spaces/S/pages/7/X" (.str "<p>new</p>") "Meeting Update").1.map
        (fun b => b.body.storage.value)) = ["OLD" ++ rest]) :=
  appendToPage_appendOnly _ "https://d.atlassian.net/wiki/spaces/S/pages/7/X" (.str "<p>new</p>")
    "Meeting Update" "7"
    { version := 5, title := "T", status := "current", content := "OLD", pageId := "7" }
    (by decide) rfl

/-- C7: whenever the PR's description matches none of the URL key patterns
(and the notice post goes through), the pipeline does not throw: it posts
exactly one comment — the Missing Design Document notice — returns
`success:false` with the specific message, and performs no document fetch and
no model call. -/
theorem reviewPR_missingDesignDoc (env : PRReviewer.ReviewEnv) (n : Nat)
    (prData : PRReviewer.PRData) (pr : PRReviewer.PRInfo) :
    env.prDetails n = .ok prData →
    prData.pr = some pr →
    GitHubService.extractConfluenceUrl (pr.body.getD "") = none →
    env.postComment n ("## ⚠️ Missing Design Document\n\n" ++ PRReviewer.missingDocMessage) = .ok () →
    PRReviewer.reviewPR env n =
      (.ok { success := false, prNumber := n, message := some PRReviewer.missingDocMessage,
             designDocUrl := none, analysis := none, error := none },
       { comments := [(n, "## ⚠️ Missing Design Document\n\n" ++ PRReviewer.missingDocMessage)],
         pageFetches := 0, llmCalls := 0 }) ∧
    jsIncludes ("## ⚠️ Missing Design Document\n\n" ++ PRReviewer.missingDocMessage)
      "Missing Design Document" = true := by
  intro h1 h2 h3 h4
  refine ⟨?_, by decide⟩
  unfold PRReviewer.reviewPR
  simp only [h1, h2, h3, h4]

/-- C7 witness: `reviewPR_missingDesignDoc` at a concrete environment whose
PR has an empty description. -/
theorem reviewPR_missingDesignDoc_witness :
    PRReviewer.reviewPR
      { prDetails := fun k =>
          .ok { pr := some { title := none, body := none }, diff := none, prNumber := k },
        confGet := fun _ => .error ⟨none, .null, "unreachable"⟩,
        analyze := fun _ _ => .error (.err "unreachable"),
        postComment := fun _ _ => .ok (), now := "2025-01-01T00:00:00.000Z" } 12 =
      (.ok { success := false, prNumber := 12, message := some PRReviewer.missingDocMessage,
             designDocUrl := none, analysis := none, error := none },
       { comments := [(12, "## ⚠️ Missing Design Document\n\n" ++ PRReviewer.missingDocMessage)],
         pageFetches := 0, llmCalls := 0 }) ∧
    jsIncludes ("## ⚠️ Missing Design Document\n\n" ++ PRReviewer.missingDocMessage)
      "Missing Design Document" = true :=
  reviewPR_missingDesignDoc _ 12 _ _ rfl rfl (by decide) rfl

/-- Batch review produces exactly the per-item outcomes, in order. -/
theorem reviewMultiplePRs_results (env : PRReviewer.ReviewEnv) (ns : List Nat) :
    (PRReviewer.reviewMultiplePRs env ns).1 = ns.map (PRReviewer.reviewItemOutcome env) := by
  induction ns with
  | nil => rfl
  | cons n rest ih =>
    simp only [PRReviewer.reviewMultiplePRs, List.map_cons]
    rw [← ih]
    rfl

/-- Batch meeting processing produces exactly the per-item outcomes, in
order. -/
theorem processMultipleMeetings_results (env : MeetingSummarizer.MeetingEnv)
    (mds : List MeetingSummarizer.MeetingData) :
    (MeetingSummarizer.processMultipleMeetings env mds).2 =
      mds.map (MeetingSummarizer.meetingItemOutcome env) := by
  induction mds with
  | nil => rfl
  | cons md rest ih =>
    simp only [MeetingSummarizer.processMultipleMeetings, List.map_cons]
    rw [← ih]
    rfl

/-- C10: each batch returns exactly one result per input, in input order; the
`k`-th result is the `k`-th item's own outcome — `reviewPR`'s result, or on a
throw the `{success:false, …, error: message}` record — so one item's failure
never aborts the rest; the meeting batch keeps the same isolation. -/
theorem batchIsolation :
    (∀ (env : PRReviewer.ReviewEnv) (ns : List Nat),
      (PRReviewer.reviewMultiplePRs env ns).1.length = ns.length ∧
      ∀ k : Nat, (PRReviewer.reviewMultiplePRs env ns).1[k]? =
        (ns[k]?).map (PRReviewer.reviewItemOutcome env)) ∧
    (∀ (menv : MeetingSummarizer.MeetingEnv) (mds : List MeetingSummarizer.MeetingData),
      (MeetingSummarizer.processMultipleMeetings menv mds).2.length = mds.length ∧
      ∀ k : Nat, (MeetingSummarizer.processMultipleMeetings menv mds).2[k]? =
        (mds[k]?).map (MeetingSummarizer.meetingItemOutcome menv)) := by
  constructor
  · intro env ns
    rw [reviewMultiplePRs_results]
    exact ⟨List.length_map _ _, fun k => List.getElem?_map _ _ _⟩
  · intro menv mds
    rw [processMultipleMeetings_results]
    exact ⟨List.length_map _ _, fun k => List.getElem?_map _ _ _⟩

/-- A non-`<` head passes the scan step. -/
theorem stepOk_of_ne {c : Char} (h : c ≠ '<') (l : List Char) : stepOk c l = true := by
  simp [stepOk, h]

/-- `ltScFree` ignores a non-`<` head. -/
theorem ltScFree_cons_ne {c : Char} (h : c ≠ '<') (l : List Char) :
    ltScFree (c :: l) = ltScFree l := by
  simp [ltScFree, stepOk_of_ne h]

/-- `ltScFree` ignores a `<`-free prefix. -/
theorem ltScFree_append_of_not_mem {a : List Char} (h : '<' ∉ a) (b : List Char) :
    ltScFree (a ++ b) = ltScFree b := by
  induction a with
  | nil => rfl
  | cons c a' ih =>
    have hc : c ≠ '<' := fun hcc => h (hcc ▸ List.mem_cons_self c a')
    rw [List.cons_append, ltScFree_cons_ne hc]
    exact ih (fun hm => h (List.mem_cons_of_mem _ hm))

/-- A replacement block `<c₁c₂…>` whose first two characters cannot begin
`sc` keeps a scan clean. -/
theorem ltScFree_block {c1 c2 : Char} {ts b : List Char} (hmem : '<' ∉ (c1 :: c2 :: ts))
    (hpair : (sIsh c1 && cIsh c2) = false) (hb : ltScFree b = true) :
    ltScFree (('<' :: c1 :: c2 :: ts) ++ b) = true := by
  have h1 : ltScFree ('<' :: c1 :: c2 :: (ts ++ b)) =
      (stepOk '<' (c1 :: c2 :: (ts ++ b)) && ltScFree (c1 :: c2 :: (ts ++ b))) := rfl
  have hstep : stepOk '<' (c1 :: c2 :: (ts ++ b)) = true := by
    simp [stepOk, hpair]
  have htail : ltScFree (c1 :: c2 :: (ts ++ b)) = true := by
    have h2 := ltScFree_append_of_not_mem hmem b
    simp only [List.cons_append] at h2
    rw [h2]
    exact hb
  calc ltScFree (('<' :: c1 :: c2 :: ts) ++ b)
      = ltScFree ('<' :: c1 :: c2 :: (ts ++ b)) := by simp
    _ = true := by rw [h1, hstep, htail]; rfl

/-- A successful `ciStrip` returns the case-variant of its pattern and splits
the input. -/
theorem ciStrip_spec :
    ∀ {pat cs m r : List Char}, ciStrip pat cs = some (m, r) →
      m.map Char.toLower = pat ∧ cs = m ++ r := by
  intro pat
  induction pat with
  | nil =>
    intro cs m r h
    simp [ciStrip] at h
    simp [h.1, h.2]
  | cons p ps ih =>
    intro cs m r h
    cases cs with
    | nil => simp [ciStrip] at h
    | cons c cs' =>
      simp only [ciStrip] at h
      by_cases hc : c.toLower = p
      · rw [if_pos hc] at h
        cases hcall : ciStrip ps cs' with
        | none => rw [hcall] at h; cases h
        | some pr =>
          obtain ⟨m', r'⟩ := pr
          rw [hcall] at h
          obtain ⟨hm, hr⟩ := ih hcall
          cases h
          simp [hm, hc, hr]
      · rw [if_neg hc] at h; cases h

/-- A successful `findAllowedTagGo` names an alternative case-insensitively
and splits the input. -/
theorem findAllowedTagGo_spec :
    ∀ {ts : List (List Char)} {cs tt r : List Char},
      ConfluenceService.findAllowedTagGo ts cs = some (tt, r) →
      ∃ t ∈ ts, tt.map Char.toLower = t ∧ cs = tt ++ r := by
  intro ts
  induction ts with
  | nil => intro cs tt r h; simp [ConfluenceService.findAllowedTagGo] at h
  | cons t ts' ih =>
    intro cs tt r h
    simp only [ConfluenceService.findAllowedTagGo] at h
    cases hc : ciStrip t cs with
    | some pr =>
      rw [hc] at h
      obtain ⟨m, rr⟩ := pr
      cases h
      obtain ⟨hm, hsplit⟩ := ciStrip_spec hc
      exact ⟨t, List.mem_cons_self _ _, hm, hsplit⟩
    | none =>
      rw [hc] at h
      obtain ⟨t', ht', hm, hsplit⟩ := ih h
      exact ⟨t', List.mem_cons_of_mem _ ht', hm, hsplit⟩

/-- A successful `findAllowedTag` names an allowed alternative and splits the
input. -/
theorem findAllowedTag_spec {cs tt r : List Char}
    (h : ConfluenceService.findAllowedTag cs = some (tt, r)) :
    ∃ t ∈ ConfluenceService.allowedTags, tt.map Char.toLower = t ∧ cs = tt ++ r :=
  findAllowedTagGo_spec h

/-- A successful `parseTagEnd` uses only characters of its input, for the
attribute text and the remainder alike. -/
theorem parseTagEnd_spec {cs a r : List Char}
    (h : ConfluenceService.parseTagEnd cs = some (a, r)) :
    (∀ x ∈ a, x ∈ cs) ∧ (∀ x ∈ r, x ∈ cs) := by
  unfold ConfluenceService.parseTagEnd at h
  cases hgt : ciStrip ['&', 'g', 't', ';'] cs with
  | some pr =>
    obtain ⟨m, r'⟩ := pr
    simp only [hgt] at h
    cases h
    obtain ⟨-, hsplit⟩ := ciStrip_spec hgt
    refine ⟨fun x hx => absurd hx (by simp), fun x hx => ?_⟩
    rw [hsplit]
    exact List.mem_append_right _ hx
  | none =>
    simp only [hgt] at h
    cases cs with
    | nil => cases h
    | cons c cs' =>
      simp only [] at h
      by_cases hsp : jsSpace c = true
      · rw [if_pos hsp] at h
        cases hgt2 : ciStrip ['&', 'g', 't', ';']
            (cs'.dropWhile (fun x => !(x = '&'))) with
        | some pr2 =>
          obtain ⟨m2, r2⟩ := pr2
          simp only [hgt2] at h
          cases h
          obtain ⟨-, hsplit2⟩ := ciStrip_spec hgt2
          constructor
          · intro x hx
            rcases List.mem_cons.1 hx with hxc | hxt
            · exact hxc ▸ List.mem_cons_self _ _
            · exact List.mem_cons_of_mem _
                (( List.takeWhile_prefix _).sublist.subset hxt)
          · intro x hx
            apply List.mem_cons_of_mem
            have hx2 : x ∈ cs'.dropWhile (fun x => !(x = '&')) := by
              rw [hsplit2]; exact List.mem_append_right _ hx
            exact (List.dropWhile_suffix _).sublist.subset hx2
        | none => simp only [hgt2] at h; cases h
      · rw [if_neg hsp] at h; cases h

/-- A successful `parseReopenAt` yields a tag that case-matches an allowed
alternative, and attribute/remainder characters drawn from the input. -/
theorem parseReopenAt_spec {cs : List Char} {h : ConfluenceService.ReopenHit}
    (hp : ConfluenceService.parseReopenAt cs = some h) :
    (∃ t ∈ ConfluenceService.allowedTags, h.tagText.map Char.toLower = t) ∧
    (∀ x ∈ h.attrs, x ∈ cs) ∧ (∀ x ∈ h.rest, x ∈ cs) := by
  unfold ConfluenceService.parseReopenAt at hp
  cases hlt : ciStrip ['&', 'l', 't', ';'] cs with
  | none => rw [hlt] at hp; cases hp
  | some pr =>
    obtain ⟨m0, r1⟩ := pr
    simp only [hlt] at hp
    obtain ⟨-, hsplit0⟩ := ciStrip_spec hlt
    have hr1cs : ∀ x ∈ r1, x ∈ cs := by
      intro x hx; rw [hsplit0]; exact List.mem_append_right _ hx
    split at hp
    · next r2 =>
      have hr2cs : ∀ x ∈ r2, x ∈ cs :=
        fun x hx => hr1cs x (List.mem_cons_of_mem _ hx)
      cases hf : ConfluenceService.findAllowedTag r2 with
      | none => simp only [hf] at hp; cases hp
      | some prf =>
        obtain ⟨tt, r3⟩ := prf
        simp only [hf] at hp
        obtain ⟨t, ht, hm, hsplit⟩ := findAllowedTag_spec hf
        cases hpe : ConfluenceService.parseTagEnd r3 with
        | none => simp only [hpe] at hp; cases hp
        | some pre =>
          obtain ⟨a, r4⟩ := pre
          simp only [hpe] at hp
          cases hp
          obtain ⟨ha, hr⟩ := parseTagEnd_spec hpe
          refine ⟨⟨t, ht, hm⟩, ?_, ?_⟩
          · intro x hx
            exact hr2cs x (hsplit ▸ List.mem_append_right _ (ha x hx))
          · intro x hx
            exact hr2cs x (hsplit ▸ List.mem_append_right _ (hr x hx))
    · cases hf : ConfluenceService.findAllowedTag r1 with
      | none => simp only [hf] at hp; cases hp
      | some prf =>
        obtain ⟨tt, r3⟩ := prf
        simp only [hf] at hp
        obtain ⟨t, ht, hm, hsplit⟩ := findAllowedTag_spec hf
        cases hpe : ConfluenceService.parseTagEnd r3 with
        | none => simp only [hpe] at hp; cases hp
        | some pre =>
          obtain ⟨a, r4⟩ := pre
          simp only [hpe] at hp
          cases hp
          obtain ⟨ha, hr⟩ := parseTagEnd_spec hpe
          refine ⟨⟨t, ht, hm⟩, ?_, ?_⟩
          · intro x hx
            exact hr1cs x (hsplit ▸ List.mem_append_right _ (ha x hx))
          · intro x hx
            exact hr1cs x (hsplit ▸ List.mem_append_right _ (hr x hx))

/-- A character whose lower case is not `s` is not `s`/`S`. -/
theorem sIsh_false_of {c x : Char} (h : c.toLower = x) (hx : x ≠ 's') : sIsh c = false := by
  unfold sIsh
  by_cases h1 : c = 's'
  · subst h1
    exact absurd (by rw [← h]; decide) hx
  · by_cases h2 : c = 'S'
    · subst h2
      exact absurd (by rw [← h]; decide) hx
    · simp [h1, h2]

/-- A character whose lower case is not `c` is not `c`/`C`. -/
theorem cIsh_false_of {c x : Char} (h : c.toLower = x) (hx : x ≠ 'c') : cIsh c = false := by
  unfold cIsh
  by_cases h1 : c = 'c'
  · subst h1
    exact absurd (by rw [← h]; decide) hx
  · by_cases h2 : c = 'C'
    · subst h2
      exact absurd (by rw [← h]; decide) hx
    · simp [h1, h2]

/-- Destructure a list from its lower-cased image. -/
theorem map_toLower_cons {tt : List Char} {x : Char} {xs : List Char}
    (h : tt.map Char.toLower = x :: xs) :
    ∃ a t', tt = a :: t' ∧ a.toLower = x ∧ t'.map Char.toLower = xs := by
  cases tt with
  | nil => simp at h
  | cons a t' =>
    simp only [List.map_cons, List.cons.injEq] at h
    exact ⟨a, t', rfl, h.1, h.2⟩

/-- No character of any allowed tag's case variant is `<`. -/
theorem tag_chars_ne_lt {t : List Char} (ht : t ∈ ConfluenceService.allowedTags)
    {tt : List Char} (hm : tt.map Char.toLower = t) : '<' ∉ tt := by
  intro hmem
  have h1 : Char.toLower '<' ∈ t := hm ▸ List.mem_map_of_mem Char.toLower hmem
  rw [show Char.toLower '<' = '<' from by decide] at h1
  fin_cases ht <;> simp at h1

/-- First-character safety: a tag variant whose head cannot be `s`/`S`. -/
theorem tagHeadSafe_of_sIsh {tt z : List Char} (hz : z ≠ []) {a : Char} {t' : List Char}
    (htt : tt = a :: t') (hs : sIsh a = false) :
    ∃ c1 c2 ts, tt ++ z = c1 :: c2 :: ts ∧ (sIsh c1 && cIsh c2) = false := by
  subst htt
  cases hrest : t' ++ z with
  | nil => exact absurd (List.append_eq_nil.1 hrest).2 hz
  | cons c2 ts =>
    exact ⟨a, c2, ts, by simp [hrest], by simp [hs]⟩

/-- Second-character safety: a tag variant whose second character cannot be
`c`/`C`. -/
theorem tagHeadSafe_of_cIsh {tt z : List Char} {a b : Char} {t'' : List Char}
    (htt : tt = a :: b :: t'') (hc : cIsh b = false) :
    ∃ c1 c2 ts, tt ++ z = c1 :: c2 :: ts ∧ (sIsh c1 && cIsh c2) = false := by
  subst htt
  exact ⟨a, b, t'' ++ z, by simp, by simp [hc]⟩

/-- The case variant of any allowed tag, extended by anything non-empty,
starts with two characters that cannot begin `sc`: every alternative except
`strong`/`span` starts with a letter other than `s`, and those two continue
with `t`/`p`. -/
theorem tagHeadSafe {t tt : List Char} (ht : t ∈ ConfluenceService.allowedTags)
    (hm : tt.map Char.toLower = t) (z : List Char) (hz : z ≠ []) :
    ∃ c1 c2 ts, tt ++ z = c1 :: c2 :: ts ∧ (sIsh c1 && cIsh c2) = false := by
  fin_cases ht <;>
    first
      | (obtain ⟨a, t', htt, hlow, hrest2⟩ := map_toLower_cons hm
         exact tagHeadSafe_of_sIsh hz htt (sIsh_false_of hlow (by decide)))
      | (obtain ⟨a, t', htt, hlow, hrest2⟩ := map_toLower_cons hm
         obtain ⟨b, t'', htt2, hlow2, hrest3⟩ := map_toLower_cons hrest2
         exact tagHeadSafe_of_cIsh (show tt = a :: b :: t'' from by rw [htt, htt2])
           (cIsh_false_of hlow2 (by decide)))

/-- Every allowed tag is non-empty, so a matched tag text is too. -/
theorem tagText_ne_nil {t tt : List Char} (ht : t ∈ ConfluenceService.allowedTags)
    (hm : tt.map Char.toLower = t) : tt ≠ [] := by
  intro hnil
  subst hnil
  fin_cases ht <;> simp at hm

/-- The reopening scan preserves script-freedom: on `<`-free input — which
the escaped text always is — every emitted `<` opens a replacement block
whose first characters cannot begin `sc`, and any continuation that scans
clean stays clean. -/
theorem reopenGo_safe : ∀ (fuel : Nat) (cs k : List Char), '<' ∉ cs → ltScFree k = true →
    ltScFree (ConfluenceService.reopenGo fuel cs ++ k) = true := by
  intro fuel
  induction fuel with
  | zero =>
    intro cs k hcs hk
    rw [ConfluenceService.reopenGo, ltScFree_append_of_not_mem hcs]
    exact hk
  | succ fuel ih =>
    intro cs k hcs hk
    cases cs with
    | nil =>
      rw [ConfluenceService.reopenGo]
      simpa using hk
    | cons c rest =>
      have hcrest : '<' ∉ rest := fun hm => hcs (List.mem_cons_of_mem _ hm)
      have hcne : c ≠ '<' := fun hcc => hcs (hcc ▸ List.mem_cons_self _ _)
      cases hp : ConfluenceService.parseReopenAt (c :: rest) with
      | none =>
        simp only [ConfluenceService.reopenGo, hp]
        rw [List.cons_append, ltScFree_cons_ne hcne]
        exact ih rest k hcrest hk
      | some h =>
        obtain ⟨⟨t, ht, hm⟩, hattrs, hrest⟩ := parseReopenAt_spec hp
        have hRk : ltScFree (ConfluenceService.reopenGo fuel h.rest ++ k) = true :=
          ih h.rest k (fun hmem => hcs (hrest '<' hmem)) hk
        have httne : '<' ∉ h.tagText := tag_chars_ne_lt ht hm
        have hattrne : '<' ∉ h.attrs := fun hmem => hcs (hattrs '<' hmem)
        have hzne : '<' ∉ (h.attrs ++ ['>']) := by
          intro hmem
          rcases List.mem_append.1 hmem with h1 | h1
          · exact hattrne h1
          · simp at h1
        simp only [ConfluenceService.reopenGo, hp]
        by_cases hsl : h.slash = true
        · obtain ⟨t0, tt', htt⟩ := List.exists_cons_of_ne_nil (tagText_ne_nil ht hm)
          have hgoal :
              ('<' :: ((if h.slash then ['/'] else []) ++ h.tagText ++ h.attrs ++
                  '>' :: ConfluenceService.reopenGo fuel h.rest)) ++ k =
              ('<' :: '/' :: t0 :: (tt' ++ (h.attrs ++ ['>']))) ++
                (ConfluenceService.reopenGo fuel h.rest ++ k) := by
            simp [hsl, htt, List.append_assoc]
          rw [hgoal]
          apply ltScFree_block
          · intro hmem
            rcases List.mem_cons.1 hmem with h1 | h1
            · exact absurd h1.symm (by decide)
            · rcases List.mem_cons.1 h1 with h2 | h2
              · exact httne (htt ▸ (h2 ▸ List.mem_cons_self t0 tt'))
              · rcases List.mem_append.1 h2 with h3 | h3
                · exact httne (htt ▸ List.mem_cons_of_mem _ h3)
                · exact hzne h3
          · simp [sIsh]
          · exact hRk
        · obtain ⟨c1, c2, ts, heq, hpair⟩ :=
            tagHeadSafe ht hm (h.attrs ++ ['>']) (by simp)
          have hgoal :
              ('<' :: ((if h.slash then ['/'] else []) ++ h.tagText ++ h.attrs ++
                  '>' :: ConfluenceService.reopenGo fuel h.rest)) ++ k =
              ('<' :: c1 :: c2 :: ts) ++ (ConfluenceService.reopenGo fuel h.rest ++ k) := by
            rw [← heq]
            simp [hsl, List.append_assoc]
          rw [hgoal]
          apply ltScFree_block
          · intro hmem
            have : '<' ∈ h.tagText ++ (h.attrs ++ ['>']) := heq ▸ hmem
            rcases List.mem_append.1 this with h1 | h1
            · exact httne h1
            · exact hzne h1
          · exact hpair
          · exact hRk

/-- The `<`-escape leaves no `<` at all. -/
theorem lt_not_mem_escapeLt (cs : List Char) : '<' ∉ ConfluenceService.escapeLt cs := by
  induction cs with
  | nil => simp [ConfluenceService.escapeLt]
  | cons c rest ih =>
    simp only [ConfluenceService.escapeLt]
    by_cases hc : c = '<'
    · rw [if_pos hc]
      intro hmem
      rcases List.mem_cons.1 hmem with h1 | h1
      · exact absurd h1.symm (by decide)
      · rcases List.mem_cons.1 h1 with h2 | h2
        · exact absurd h2.symm (by decide)
        · rcases List.mem_cons.1 h2 with h3 | h3
          · exact absurd h3.symm (by decide)
          · rcases List.mem_cons.1 h3 with h4 | h4
            · exact absurd h4.symm (by decide)
            · exact ih h4
    · rw [if_neg hc]
      intro hmem
      rcases List.mem_cons.1 hmem with h1 | h1
      · exact hc h1.symm
      · exact ih h1

/-- The `>`-escape introduces no `<`. -/
theorem lt_not_mem_escapeGt {cs : List Char} (h : '<' ∉ cs) :
    '<' ∉ ConfluenceService.escapeGt cs := by
  induction cs with
  | nil => simp [ConfluenceService.escapeGt]
  | cons c rest ih =>
    have hrest : '<' ∉ rest := fun hm => h (List.mem_cons_of_mem _ hm)
    have hcne : c ≠ '<' := fun hcc => h (hcc ▸ List.mem_cons_self _ _)
    simp only [ConfluenceService.escapeGt]
    by_cases hc : c = '>'
    · rw [if_pos hc]
      intro hmem
      rcases List.mem_cons.1 hmem with h1 | h1
      · exact absurd h1.symm (by decide)
      · rcases List.mem_cons.1 h1 with h2 | h2
        · exact absurd h2.symm (by decide)
        · rcases List.mem_cons.1 h2 with h3 | h3
          · exact absurd h3.symm (by decide)
          · rcases List.mem_cons.1 h3 with h4 | h4
            · exact absurd h4.symm (by decide)
            · exact ih hrest h4
    · rw [if_neg hc]
      intro hmem
      rcases List.mem_cons.1 hmem with h1 | h1
      · exact hcne (h1.symm)
      · exact ih hrest h1

/-- The escape-and-reopen stage scans clean before any clean continuation. -/
theorem sanitizeEscaped_safe (cs k : List Char) (hk : ltScFree k = true) :
    ltScFree (ConfluenceService.sanitizeEscaped cs ++ k) = true := by
  unfold ConfluenceService.sanitizeEscaped ConfluenceService.reopenAllowedTags
  exact reopenGo_safe _ _ k (lt_not_mem_escapeGt (lt_not_mem_escapeLt _)) hk

/-- The `<p>`-wrap stage scans clean before any clean continuation. -/
theorem sanitizeWrapped_safe (cs k : List Char) (hk : ltScFree k = true) :
    ltScFree (ConfluenceService.sanitizeWrapped cs ++ k) = true := by
  unfold ConfluenceService.sanitizeWrapped
  split
  · have hclose : ltScFree (['<', '/', 'p', '>'] ++ k) = true :=
      ltScFree_block (by decide) (by decide) hk
    have hE : ltScFree (ConfluenceService.sanitizeEscaped cs ++ (['<', '/', 'p', '>'] ++ k)) = true :=
      sanitizeEscaped_safe cs _ hclose
    have hgoal :
        ('<' :: 'p' :: '>' :: (ConfluenceService.sanitizeEscaped cs ++ ['<', '/', 'p', '>'])) ++ k =
        ('<' :: 'p' :: '>' :: ([] : List Char)) ++
          (ConfluenceService.sanitizeEscaped cs ++ (['<', '/', 'p', '>'] ++ k)) := by
      simp
    rw [hgoal]
    exact ltScFree_block (by decide) (by decide) hE
  · exact sanitizeEscaped_safe cs k hk

/-- The full sanitizer pipeline scans clean. -/
theorem sanitizePipeline_safe (cs : List Char) :
    ltScFree (ConfluenceService.sanitizePipeline cs) = true := by
  unfold ConfluenceService.sanitizePipeline
  split
  · have hclose : ltScFree (['<', '/', 'd', 'i', 'v', '>'] ++ ([] : List Char)) = true :=
      ltScFree_block (by decide) (by decide) (by decide)
    have hW : ltScFree (ConfluenceService.sanitizeWrapped cs ++
        (['<', '/', 'd', 'i', 'v', '>'] ++ ([] : List Char))) = true :=
      sanitizeWrapped_safe cs _ hclose
    have hgoal :
        '<' :: 'd' :: 'i' :: 'v' :: '>' ::
            (ConfluenceService.sanitizeWrapped cs ++ ['<', '/', 'd', 'i', 'v', '>']) =
        ('<' :: 'd' :: 'i' :: ('v' :: '>' :: [])) ++
          (ConfluenceService.sanitizeWrapped cs ++ (['<', '/', 'd', 'i', 'v', '>'] ++ [])) := by
      simp
    rw [hgoal]
    exact ltScFree_block (by decide) (by decide) hW
  · have := sanitizeWrapped_safe cs [] (by decide)
    simpa using this

/-- A clean scan excludes the literal substring `<script`. -/
theorem ltScFree_no_script : ∀ {l : List Char}, ltScFree l = true →
    containsSubL "<script".data l = false := by
  intro l
  induction l with
  | nil => intro h; decide
  | cons c rest ih =>
    intro h
    rw [ltScFree, Bool.and_eq_true] at h
    obtain ⟨hstep, htail⟩ := h
    have h2 : containsSubL "<script".data rest = false := ih htail
    rw [containsSubL, h2, Bool.or_false]
    cases rest with
    | nil =>
      show startsWithL ['<', 's', 'c', 'r', 'i', 'p', 't'] [c] = false
      simp [startsWithL]
    | cons r1 rest' =>
      cases rest' with
      | nil =>
        show startsWithL ['<', 's', 'c', 'r', 'i', 'p', 't'] [c, r1] = false
        simp [startsWithL]
      | cons r2 rest'' =>
        by_contra hfalse
        rw [Bool.not_eq_false] at hfalse
        have hst := hfalse
        rw [show ("<script".data : List Char) = ['<', 's', 'c', 'r', 'i', 'p', 't'] from rfl] at hst
        rw [startsWithL, Bool.and_eq_true] at hst
        obtain ⟨hc, hst1⟩ := hst
        rw [startsWithL, Bool.and_eq_true] at hst1
        obtain ⟨hr1, hst2⟩ := hst1
        rw [startsWithL, Bool.and_eq_true] at hst2
        obtain ⟨hr2, -⟩ := hst2
        have hceq : c = '<' := (of_decide_eq_true hc).symm
        have hr1eq : r1 = 's' := (of_decide_eq_true hr1).symm
        have hr2eq : r2 = 'c' := (of_decide_eq_true hr2).symm
        subst hceq; subst hr1eq; subst hr2eq
        simp [stepOk, sIsh, cIsh] at hstep

/-- C3: for every string, the sanitized output — and the doubly sanitized
output — contains no `<` followed by `s`/`S` and `c`/`C`, hence no live
`<script>` tag in any capitalisation and in particular never the substring
`<script`; on the quoted payload the script tag survives only in its escaped
`&lt;script&gt;` form. -/
theorem sanitize_script_safety :
    (∀ s : String,
      ltScFreeStr (ConfluenceService.sanitizeContentForConfluence (.str s)) = true ∧
      ltScFreeStr (ConfluenceService.sanitizeContentForConfluence
        (.str (ConfluenceService.sanitizeContentForConfluence (.str s)))) = true ∧
      containsSubL "<script".data
        (ConfluenceService.sanitizeContentForConfluence (.str s)).data = false) ∧
    ConfluenceService.sanitizeContentForConfluence (.str "<script>alert(1)</script>") =
      "<p>&lt;script&gt;alert(1)&lt;/script&gt;</p>" := by
  have hone : ∀ s : String,
      ltScFreeStr (ConfluenceService.sanitizeContentForConfluence (.str s)) = true := by
    intro s
    show ltScFreeStr (if s = "" then "<p>No content provided</p>"
      else (⟨ConfluenceService.sanitizePipeline s.data⟩ : String)) = true
    by_cases hs : s = ""
    · rw [if_pos hs]
      decide
    · rw [if_neg hs]
      exact sanitizePipeline_safe s.data
  exact ⟨fun s => ⟨hone s, hone _, ltScFree_no_script (hone s)⟩, by decide⟩
